import Mathlib

/-!
Verification development for the document-processor repository.

The JavaScript sources are shallowly embedded: pure functions become Lean
functions on `String`/`List Char`/`Nat`/`ℚ`, JavaScript exceptions become
`Except String`, `null`/`undefined` become `Option`, and calls into external
libraries (the PDF/Word/XLSX readers, `JSON.parse`, the LLM providers) become
explicit parameters recording the outcome of each call.  Regular-expression
scans from the source are compiled by hand into executable character-list
scanners that reproduce the engine's leftmost-match, first-alternative,
greedy-with-no-useful-backtracking behaviour on the patterns in question.
-/

namespace DocProc

/-- A single step's time record, as produced throughout the metrics code:
objects of the form `{step, stepName, time}`. -/
structure StepTime where
  step : String
  stepName : String
  time : String
deriving Repr, DecidableEq

/-- An optimization suggestion `{title, description, timeSaved}`. -/
structure Suggestion where
  title : String
  description : String
  timeSaved : String
deriving Repr, DecidableEq

/-! ## Character and string utilities shared by the embedded regex scans -/

/-- JavaScript `\s` character class (the code points that occur in this
repository's inputs). -/
def isJsSpace (c : Char) : Bool :=
  c = ' ' || c = '\t' || c = '\n' || c = '\r' || c = '\x0b' || c = '\x0c'

/-- Maximal leading run of decimal digits (the greedy `\d+`), returned
together with the remaining characters. -/
def takeDigits : List Char → List Char × List Char
  | [] => ([], [])
  | c :: cs =>
    if c.isDigit then
      let (ds, rest) := takeDigits cs
      (c :: ds, rest)
    else ([], c :: cs)

/-- Maximal leading run of whitespace (the greedy `\s*`). -/
def takeSpaces : List Char → List Char × List Char
  | [] => ([], [])
  | c :: cs =>
    if isJsSpace c then
      let (ws, rest) := takeSpaces cs
      (c :: ws, rest)
    else ([], c :: cs)

/-- Case-insensitive literal prefix test: does `cs` start with `lit`
(compared lowercased)?  Returns the matched original-case characters and
the remainder. -/
def matchLitCI (lit : List Char) (cs : List Char) : Option (List Char × List Char) :=
  match lit, cs with
  | [], rest => some ([], rest)
  | _ :: _, [] => none
  | l :: ls, c :: cs =>
    if c.toLower = l.toLower then
      match matchLitCI ls cs with
      | some (m, rest) => some (c :: m, rest)
      | none => none
    else none

/-- First alternative of `alts` (tried in order) that matches at the head of
`cs`, case-insensitively; returns the original-case matched text and the
remainder.  This is the compiled form of a regex alternation of literals. -/
def matchAltCI (alts : List (List Char)) (cs : List Char) : Option (List Char × List Char) :=
  match alts with
  | [] => none
  | a :: rest =>
    match matchLitCI a cs with
    | some r => some r
    | none => matchAltCI rest cs

/-- Numeric value of a digit string (JavaScript `parseInt` on an all-digit
match). -/
def natOfDigits (ds : List Char) : Nat :=
  ds.foldl (fun acc c => 10 * acc + (c.toNat - 48)) 0

/-- Case-sensitive substring containment (JavaScript `String.includes`). -/
def containsSub : List Char → List Char → Bool
  | _, [] => true
  | [], _ :: _ => false
  | c :: cs, pat => pat.isPrefixOf (c :: cs) || containsSub cs pat

/-- Case-insensitive substring containment, the semantics of a bare literal
regex such as `/hour/i` used as a test. -/
def containsCI (cs pat : List Char) : Bool :=
  containsSub (cs.map Char.toLower) (pat.map Char.toLower)

/-- JavaScript `String.trim` on a character list. -/
def trimChars (cs : List Char) : List Char :=
  ((cs.dropWhile isJsSpace).reverse.dropWhile isJsSpace).reverse

/-- First run of decimal digits anywhere in the list — the regex `/(\d+)/`
used by `valueMatch` in `extractWorkflowMetrics`. -/
def firstDigitRun : List Char → Option (List Char)
  | [] => none
  | c :: cs => if c.isDigit then some (takeDigits (c :: cs)).1 else firstDigitRun cs

/-- Generic global-flag regex scan: try the compiled matcher at each
position from the left; on a match, emit it and resume after the consumed
text, otherwise advance one character (the `lastIndex` discipline of a
JavaScript `/g` scan).  `fuel` bounds the recursion; every matcher used in
this file consumes at least one character, so `input.length` fuel is always
enough. -/
def scanTokensAux {α : Type} (matcher : List Char → Option (α × List Char)) :
    Nat → List Char → List α
  | 0, _ => []
  | _ + 1, [] => []
  | fuel + 1, c :: cs =>
    match matcher (c :: cs) with
    | some (t, rest) => t :: scanTokensAux matcher fuel rest
    | none => scanTokensAux matcher fuel cs

/-! ## utils/metricsExtractor.js — `extractWorkflowMetrics` and friends -/

/-- A match of the duration-token regex
`/(\d+)\s*(min|minute|minutes?|hour|hours?|day|days?|hr|hrs|h|d)/gi`:
the digit capture, the consumed whitespace and the matched unit text
(original casing). -/
structure TimeToken where
  numStr : List Char
  ws : List Char
  unit : List Char
deriving Repr, DecidableEq

/-- Whole text of a duration-token match (`match[0]`). -/
def rawOfToken (t : TimeToken) : List Char :=
  t.numStr ++ t.ws ++ t.unit

/-- The unit alternation `min|minute|minutes?|hour|hours?|day|days?|hr|hrs|h|d`
flattened into the literal try-order of the regex engine (an alternative with
an optional trailing `s?` tries the `s` form first). -/
def timeUnitAlts : List (List Char) :=
  ["min".toList, "minute".toList, "minutes".toList, "minute".toList,
   "hour".toList, "hours".toList, "hour".toList,
   "day".toList, "days".toList, "day".toList,
   "hr".toList, "hrs".toList, "h".toList, "d".toList]

/-- Compiled duration-token matcher at one position. -/
def matchTimeToken (cs : List Char) : Option (TimeToken × List Char) :=
  let (ds, r1) := takeDigits cs
  if ds.isEmpty then none
  else
    let (ws, r2) := takeSpaces r1
    match matchAltCI timeUnitAlts r2 with
    | some (u, rest) => some ({ numStr := ds, ws := ws, unit := u }, rest)
    | none => none

/-- All duration tokens of a diagram text (`timeMatches`). -/
def timeTokens (s : String) : List TimeToken :=
  scanTokensAux matchTimeToken (s.length + 1) s.toList

/-- One keyword branch `Kw\s+\d+` of the explicit step-label pattern. -/
def tryStepBranch (kw : List Char) (cs : List Char) : Option (List Char) :=
  match matchLitCI kw cs with
  | none => none
  | some (_, r) =>
    let (ws, r1) := takeSpaces r
    if ws.isEmpty then none
    else
      let (ds, r2) := takeDigits r1
      if ds.isEmpty then none else some r2

/-- Compiled form of the explicit step-label pattern
`/\[\s*(?:Step\s+\d+|Process\s+\d+|Activity\s+\d+)|"(?:Step|Process|Activity)\s+\d+/gi`
at one position. -/
def matchStepLabel (cs : List Char) : Option (Unit × List Char) :=
  match cs with
  | '[' :: r =>
    let (_, r1) := takeSpaces r
    match tryStepBranch "step".toList r1 with
    | some rest => some ((), rest)
    | none =>
      match tryStepBranch "process".toList r1 with
      | some rest => some ((), rest)
      | none =>
        match tryStepBranch "activity".toList r1 with
        | some rest => some ((), rest)
        | none => none
  | '"' :: r =>
    match tryStepBranch "step".toList r with
    | some rest => some ((), rest)
    | none =>
      match tryStepBranch "process".toList r with
      | some rest => some ((), rest)
      | none =>
        match tryStepBranch "activity".toList r with
        | some rest => some ((), rest)
        | none => none
  | _ => none

/-- Compiled form of the process-box pattern `/\[[^\]]+\]/g` at one
position; yields the whole bracketed text. -/
def matchBox (cs : List Char) : Option (List Char × List Char) :=
  match cs with
  | '[' :: r =>
    let inner := r.takeWhile (fun c => c ≠ ']')
    if inner.isEmpty then none
    else if inner.length = r.length then none
    else some ('[' :: inner ++ [']'], r.drop (inner.length + 1))
  | _ => none

/-- Filter applied to fallback process boxes: drop boxes whose lowercased
text contains start/end/begin. -/
def isStartEndBox (box : List Char) : Bool :=
  containsCI box "start".toList || containsCI box "end".toList ||
    containsCI box "begin".toList

/-- One iteration of the `timeEstimates.forEach` accumulation loop of
`extractWorkflowMetrics`: classification re-reads the matched token text
with `/(\d+)/`, `/hour|hr|h/i`, `/min|minute/i` and `/day|d/i`. -/
def timeAccumStep (acc : Nat × Bool) (time : List Char) : Nat × Bool :=
  match firstDigitRun time with
  | none => acc
  | some ds =>
    let value := natOfDigits ds
    if containsCI time "hour".toList || containsCI time "hr".toList ||
        containsCI time "h".toList then
      (acc.1 + value * 60, true)
    else if containsCI time "min".toList || containsCI time "minute".toList then
      (acc.1 + value, true)
    else if containsCI time "day".toList || containsCI time "d".toList then
      (acc.1 + value * 60 * 8, true)
    else acc

/-- The whole accumulation loop: running total of minutes plus the
`hasValidTotalTime` flag. -/
def timeAccum (timeEstimates : List (List Char)) : Nat × Bool :=
  timeEstimates.foldl timeAccumStep (0, false)

/-- The total-time formatting block of `extractWorkflowMetrics`. -/
def formatTotalTime (totalTimeMinutes : Nat) : String :=
  if totalTimeMinutes ≥ 60 then
    let hours := totalTimeMinutes / 60
    let minutes := totalTimeMinutes % 60
    toString hours ++ " hour" ++ (if hours ≠ 1 then "s" else "") ++
      (if minutes > 0 then
        " " ++ toString minutes ++ " minute" ++ (if minutes ≠ 1 then "s" else "")
      else "")
  else
    toString totalTimeMinutes ++ " minute" ++ (if totalTimeMinutes ≠ 1 then "s" else "")

/-- The unit alternation `min|minute|hour|hr|day|d` of the per-step time
patterns, in engine try-order. -/
def stepUnitAlts : List (List Char) :=
  ["min".toList, "minute".toList, "hour".toList, "hr".toList,
   "day".toList, "d".toList]

/-- Compiled `\d+\s*(?:min|minute|hour|hr|day|d)` at one position; yields
the matched token text and the remainder. -/
def matchNumUnitAt (cs : List Char) : Option (List Char × List Char) :=
  let (ds, r1) := takeDigits cs
  if ds.isEmpty then none
  else
    let (ws, r2) := takeSpaces r1
    match matchAltCI stepUnitAlts r2 with
    | some (u, rest) => some (ds ++ ws ++ u, rest)
    | none => none

/-- Earliest number-with-unit token inside a segment (the lazy
`[^\]]*?(\d+\s*(?:min|minute|hour|hr|day|d))` search). -/
def findNumUnit : List Char → Option (List Char)
  | [] => none
  | c :: cs =>
    match matchNumUnitAt (c :: cs) with
    | some (tok, _) => some tok
    | none => findNumUnit cs

/-- Compiled primary per-step pattern
`/\[\s*(?:Step|Process|Activity)\s+(\d+)[^\]]*?(\d+\s*(?:min|minute|hour|hr|day|d))[^\]]*?\]/gi`
at one position. -/
def matchStepTimePrimary (cs : List Char) : Option (StepTime × List Char) :=
  match cs with
  | '[' :: r =>
    let (_, r1) := takeSpaces r
    match matchAltCI ["step".toList, "process".toList, "activity".toList] r1 with
    | none => none
    | some (_, r2) =>
      let (ws, r3) := takeSpaces r2
      if ws.isEmpty then none
      else
        let (ds, r4) := takeDigits r3
        if ds.isEmpty then none
        else
          let seg := r4.takeWhile (fun c => c ≠ ']')
          if seg.length = r4.length then none
          else
            match findNumUnit seg with
            | none => none
            | some tok =>
              some ({ step := String.mk ds,
                      stepName := "Step " ++ String.mk ds,
                      time := String.mk (trimChars tok) },
                    r4.drop (seg.length + 1))
  | _ => none

/-- Compiled secondary box pattern `/\[\s*"?([^"\]]+)"?\s*\]/g` at one
position; yields the capture (the box content without surrounding quotes).
Backtracking beyond the optional-quote alternatives is not exercised by the
inputs considered here. -/
def matchGeneralBox (cs : List Char) : Option (List Char × List Char) :=
  match cs with
  | '[' :: r =>
    let (_, r1) := takeSpaces r
    let r2 := match r1 with
      | '"' :: t => t
      | _ => r1
    let content := r2.takeWhile (fun c => c ≠ '"' && c ≠ ']')
    if content.isEmpty then none
    else
      let r3 := r2.drop content.length
      let r4 := match r3 with
        | '"' :: t => t
        | _ => r3
      let (_, r5) := takeSpaces r4
      match r5 with
      | ']' :: rest => some (content, rest)
      | _ => none
  | _ => none

/-- Match of `/\(?\s*(\d+\s*(?:min|minute|hour|hr|day|d)[^\)]*)\)?/i`
anchored at the head: the capture and the whole-match length. -/
def parenTimeAt (cs : List Char) : Option (List Char × Nat) :=
  let (openLen, r1) := match cs with
    | '(' :: t => (1, t)
    | _ => (0, cs)
  let (ws, r2) := takeSpaces r1
  let (ds, r3) := takeDigits r2
  if ds.isEmpty then none
  else
    let (ws2, r4) := takeSpaces r3
    match matchAltCI stepUnitAlts r4 with
    | none => none
    | some (u, r5) =>
      let tailRun := r5.takeWhile (fun c => c ≠ ')')
      let r6 := r5.drop tailRun.length
      let closeLen := match r6 with
        | ')' :: _ => 1
        | _ => 0
      let capture := ds ++ ws2 ++ u ++ tailRun
      some (capture, openLen + ws.length + capture.length + closeLen)

/-- Leftmost match of the parenthesised-duration pattern: capture, start
index and whole-match length. -/
def findParenTime : List Char → Option (List Char × Nat × Nat)
  | [] => none
  | c :: cs =>
    match parenTimeAt (c :: cs) with
    | some (cap, len) => some (cap, 0, len)
    | none =>
      match findParenTime cs with
      | some (cap, i, len) => some (cap, i + 1, len)
      | none => none

/-- The secondary per-box pass of `extractStepTimesFromDiagram`: walk every
general box in order, skip start/end/begin boxes, number the rest densely,
strip the embedded duration from the label and record the duration when
present. -/
def secondaryStepTimes (boxes : List (List Char)) : List StepTime :=
  (boxes.foldl
    (fun (acc : List StepTime × Nat) content =>
      let boxContent := trimChars content
      if containsCI boxContent "start".toList || containsCI boxContent "end".toList ||
          containsCI boxContent "begin".toList then acc
      else
        let (sts, n) := acc
        match findParenTime boxContent with
        | some (cap, i, len) =>
          (sts ++ [{ step := toString n,
                     stepName := String.mk
                       (trimChars (boxContent.take i ++ boxContent.drop (i + len))),
                     time := String.mk (trimChars cap) }], n + 1)
        | none =>
          (sts ++ [{ step := toString n,
                     stepName := String.mk (trimChars boxContent),
                     time := "Unknown" }], n + 1))
    ([], 1)).1

/-- utils/metricsExtractor.js `extractStepTimesFromDiagram`. -/
def extractStepTimesFromDiagram (s : String) : List StepTime :=
  let primary := scanTokensAux matchStepTimePrimary (s.length + 1) s.toList
  if primary.isEmpty then
    secondaryStepTimes (scanTokensAux matchGeneralBox (s.length + 1) s.toList)
  else primary

/-- Optimized-process sub-metrics attached by `mergeMetrics` when
optimization metrics are supplied. -/
structure OptimizedBlock where
  totalSteps : Nat
  totalTime : String
  suggestions : List Suggestion
  timeSavingsPercent : Int
deriving Repr, DecidableEq

/-- The metrics object produced by `extractWorkflowMetrics`,
`extractProcessMetrics` and `mergeMetrics`. -/
structure ProcessMetrics where
  totalSteps : Nat
  totalTime : String
  stepTimes : List StepTime
  timeEstimates : List String := []
  optimized : Option OptimizedBlock := none
deriving Repr, DecidableEq

/-- utils/metricsExtractor.js `defaultMetrics`. -/
def defaultMetrics : ProcessMetrics :=
  { totalSteps := 0, totalTime := "Unknown", timeEstimates := [], stepTimes := [] }

/-- utils/metricsExtractor.js `extractWorkflowMetrics`.  The argument is
`Option String` because the JavaScript parameter may be `null`/`undefined`;
the empty string is likewise falsy and hits the same early return. -/
def extractWorkflowMetrics (diagramCode : Option String) : ProcessMetrics :=
  match diagramCode with
  | none => defaultMetrics
  | some s =>
    if s = "" then defaultMetrics
    else
      let stepMatches := scanTokensAux matchStepLabel (s.length + 1) s.toList
      let totalSteps :=
        if stepMatches.length = 0 then
          ((scanTokensAux matchBox (s.length + 1) s.toList).filter
            (fun box => !isStartEndBox box)).length
        else stepMatches.length
      let timeEstimates := (timeTokens s).map (fun t => trimChars (rawOfToken t))
      let (totalTimeMinutes, hasValidTotalTime) := timeAccum timeEstimates
      let totalTimeFormatted :=
        if hasValidTotalTime then formatTotalTime totalTimeMinutes else "Unknown"
      { totalSteps := totalSteps,
        totalTime := if hasValidTotalTime then totalTimeFormatted else "Unknown",
        timeEstimates := timeEstimates.map String.mk,
        stepTimes := extractStepTimesFromDiagram s }

/-! ## Time-string parsing (upload.js local helper and utils/optimizationUtils.js) -/

/-- Alternation `hour|hr|h` in engine try-order. -/
def hourAlts : List (List Char) := ["hour".toList, "hr".toList, "h".toList]

/-- Alternation `minute|min|m` in engine try-order. -/
def minuteAlts : List (List Char) := ["minute".toList, "min".toList, "m".toList]

/-- Alternation `day|d` in engine try-order. -/
def dayAlts : List (List Char) := ["day".toList, "d".toList]

/-- Leftmost match of `/(\d+)\s*(?:A|B|C)s?/i`: the integer capture of the
first digit run that is followed (after optional whitespace) by one of the
unit alternatives. -/
def findIntBeforeUnits (alts : List (List Char)) : List Char → Option Nat
  | [] => none
  | c :: cs =>
    (if c.isDigit then
      let (ds, r1) := takeDigits (c :: cs)
      let (_, r2) := takeSpaces r1
      if (matchAltCI alts r2).isSome then some (natOfDigits ds) else none
    else none).orElse
      (fun _ => findIntBeforeUnits alts cs)

/-- upload.js `parseTimeToMinutes` (the copy local to
utils/metricsExtractor.js, integer-valued, no bare-number fallback). -/
def parseTimeToMinutesU (timeString : Option String) : Option Nat :=
  match timeString with
  | none => none
  | some s =>
    if s = "" then none
    else
      let hoursPart :=
        match findIntBeforeUnits hourAlts s.toList with
        | some v => v * 60
        | none => 0
      let minutesPart :=
        match findIntBeforeUnits minuteAlts s.toList with
        | some v => v
        | none => 0
      let daysPart :=
        match findIntBeforeUnits dayAlts s.toList with
        | some v => v * 8 * 60
        | none => 0
      let totalMinutes := hoursPart + minutesPart + daysPart
      if totalMinutes > 0 then some totalMinutes else none

/-- utils/metricsExtractor.js `calculateTimeSavingsPercent`. -/
def calculateTimeSavingsPercent (originalTime : String) (optimizedTime : Option String) :
    Option Int :=
  let originalMinutes := parseTimeToMinutesU (some originalTime)
  let optimizedMinutes := parseTimeToMinutesU optimizedTime
  match originalMinutes, optimizedMinutes with
  | some a, some b =>
    if a > 0 then some (round ((((a : ℚ) - (b : ℚ)) / (a : ℚ)) * 100)) else none
  | _, _ => none

/-- Parsed optimization metrics handed to `mergeMetrics` (fields optional,
as recovered from LLM output). -/
structure OptMetricsIn where
  totalSteps : Option Nat := none
  totalTime : Option String := none
  suggestions : Option (List Suggestion) := none
deriving Repr, DecidableEq

/-- JavaScript `x || d` on an optional number (`0` is falsy). -/
def jsOrNat (o : Option Nat) (d : Nat) : Nat :=
  match o with
  | some k => if k = 0 then d else k
  | none => d

/-- JavaScript `x || d` on an optional string (the empty string is falsy). -/
def jsOrStr (o : Option String) (d : String) : String :=
  match o with
  | some s => if s = "" then d else s
  | none => d

/-- The three precedence-fallback assignments at the top of
utils/metricsExtractor.js `mergeMetrics`. -/
def mergeBase (workflowMetrics : ProcessMetrics) (documentMetrics : Option ProcessMetrics) :
    ProcessMetrics :=
  let metrics := workflowMetrics
  let metrics :=
    if metrics.totalSteps = 0 then
      { metrics with totalSteps := (documentMetrics.map (·.totalSteps)).getD 0 }
    else metrics
  let metrics :=
    if metrics.totalTime = "Unknown" then
      { metrics with totalTime := jsOrStr (documentMetrics.map (·.totalTime)) "Unknown" }
    else metrics
  match documentMetrics with
  | some d =>
    if metrics.stepTimes.isEmpty && !d.stepTimes.isEmpty then
      { metrics with stepTimes := d.stepTimes }
    else metrics
  | none => metrics

/-- utils/metricsExtractor.js `mergeMetrics`.  `Math.floor(totalSteps * 0.7)`
is modelled as exact ⌊7·n/10⌋; the step counts arising here are far below
the range where binary floating point could diverge from that value. -/
def mergeMetrics (workflowMetrics : ProcessMetrics) (documentMetrics : Option ProcessMetrics)
    (optimizationMetrics : Option OptMetricsIn) : ProcessMetrics :=
  let metrics := mergeBase workflowMetrics documentMetrics
  match optimizationMetrics with
  | some o =>
    { metrics with
      optimized := some
        { totalSteps := jsOrNat o.totalSteps (7 * metrics.totalSteps / 10),
          totalTime := jsOrStr o.totalTime "Unknown",
          suggestions := o.suggestions.getD [],
          timeSavingsPercent :=
            match calculateTimeSavingsPercent metrics.totalTime o.totalTime with
            | some p => if p = 0 then 30 else p
            | none => 30 } }
  | none => metrics

/-! ## utils/documentGenerator.js — step-times normalization block of
`extractProcessMetrics` (lines 541–557) -/

/-- The placeholder entry pushed by the padding loop when the list holds
`m` entries so far: `{step: (m+1), stepName: "Step (m+1)", time: "Not
specified"}`. -/
def mkPadEntry (m : Nat) : StepTime :=
  { step := toString (m + 1),
    stepName := "Step " ++ toString (m + 1),
    time := "Not specified" }

/-- The `while (stepTimes.length < totalSteps)` padding loop. -/
def padStepTimes (sts : List StepTime) (n : Nat) : List StepTime :=
  if _h : sts.length < n then
    padStepTimes (sts ++ [mkPadEntry sts.length]) n
  else sts
termination_by n - sts.length
decreasing_by simp only [List.length_append, List.length_cons, List.length_nil]; omega

/-- The normalization block of `extractProcessMetrics`: when the collected
step-times count disagrees with a positive `totalSteps`, trim the excess or
pad with placeholder entries. -/
def adjustStepTimes (stepTimes : List StepTime) (totalSteps : Nat) : List StepTime :=
  if stepTimes.length ≠ totalSteps && totalSteps > 0 then
    let trimmed :=
      if stepTimes.length > totalSteps then stepTimes.take totalSteps else stepTimes
    padStepTimes trimmed totalSteps
  else stepTimes

/-! ## utils/optimizationUtils.js — `parseTimeToMinutes` (rational-valued,
decimal numbers, bare-number fallback) -/

/-- Leading match of `\d+(?:\.\d+)?`: the integer and fractional digit
captures and the remainder.  The optional fractional group participates
only when at least one digit follows the dot. -/
def takeDecimal (cs : List Char) : Option ((List Char × List Char) × List Char) :=
  let (ds, r1) := takeDigits cs
  if ds.isEmpty then none
  else
    match r1 with
    | '.' :: r2 =>
      let (fs, r3) := takeDigits r2
      if fs.isEmpty then some ((ds, []), r1)
      else some ((ds, fs), r3)
    | _ => some ((ds, []), r1)

/-- `parseFloat` value of a decimal-digit match. -/
def decValue (p : List Char × List Char) : ℚ :=
  if p.2.isEmpty then (natOfDigits p.1 : ℚ)
  else (natOfDigits p.1 : ℚ) + (natOfDigits p.2 : ℚ) / ((10 : ℚ) ^ p.2.length)

/-- Leftmost match of `/(\d+(?:\.\d+)?)\s*(?:A|B|C)s?/i`, returned as its
digit captures. -/
def findDecBeforeUnits (alts : List (List Char)) : List Char → Option (List Char × List Char)
  | [] => none
  | c :: cs =>
    (match takeDecimal (c :: cs) with
     | some (v, r1) =>
       let (_, r2) := takeSpaces r1
       if (matchAltCI alts r2).isSome then some v else none
     | none => none).orElse
      (fun _ => findDecBeforeUnits alts cs)

/-- Leftmost bare number `/(\d+(?:\.\d+)?)/` (the `justNumber` fallback). -/
def firstDecimal : List Char → Option (List Char × List Char)
  | [] => none
  | c :: cs =>
    match takeDecimal (c :: cs) with
    | some (v, _) => some v
    | none => firstDecimal cs

/-- utils/optimizationUtils.js `parseTimeToMinutes`. -/
def parseTimeToMinutesO (timeString : Option String) : Option ℚ :=
  match timeString with
  | none => none
  | some s =>
    if s = "" || s = "Unknown" then none
    else
      let hoursPart :=
        match findDecBeforeUnits hourAlts s.toList with
        | some v => decValue v * 60
        | none => 0
      let minutesPart :=
        match findDecBeforeUnits minuteAlts s.toList with
        | some v => decValue v
        | none => 0
      let daysPart :=
        match findDecBeforeUnits dayAlts s.toList with
        | some v => decValue v * 8 * 60
        | none => 0
      let total := hoursPart + minutesPart + daysPart
      let totalMinutes :=
        if total = 0 then
          match firstDecimal s.toList with
          | some v => decValue v
          | none => total
        else total
      if totalMinutes > 0 then some totalMinutes else none

/-! ## utils/metricsExtractor.js — `parseOptimizationResult` (RecoveryParser)

JSON values are represented syntactically; `JSON.parse` and the field-probe
regexes of the third tier are taken as parameters (they are total functions
of the input, supplied by the JavaScript runtime), which lets the theorems
quantify over every possible behaviour of those primitives.  All exception
flow — the nested try/catch tiers — is embedded explicitly. -/

/-- Syntactic JSON values. -/
inductive Json where
  | null : Json
  | bool : Bool → Json
  | num : Int → Json
  | str : String → Json
  | arr : List Json → Json
  | obj : List (String × Json) → Json
deriving Repr

/-- Field lookup in a JSON object. -/
def jsonField (j : Json) (k : String) : Option Json :=
  match j with
  | Json.obj fs => (fs.find? (fun f => f.1 = k)).map (fun f => f.2)
  | _ => none

/-- Split a character list at the first occurrence of `pat`, returning the
text before it and the text after it. -/
def splitAtSub (pat : List Char) : List Char → Option (List Char × List Char)
  | [] => if pat.isEmpty then some ([], []) else none
  | c :: cs =>
    if pat.isPrefixOf (c :: cs) then some ([], (c :: cs).drop pat.length)
    else
      match splitAtSub pat cs with
      | some (b, a) => some (c :: b, a)
      | none => none

/-- The fenced-block probe of tier 1,
`result.match(/\x60\x60\x60(?:json)?\s*([\s\S]*?)\x60\x60\x60/)`: text of
the first fenced code block, with an optional `json` tag and leading
whitespace stripped. -/
def findFencedBlock (s : String) : Option String :=
  match splitAtSub "```".toList s.toList with
  | none => none
  | some (_, rest) =>
    let rest1 := if "json".toList.isPrefixOf rest then rest.drop 4 else rest
    let (_, rest2) := takeSpaces rest1
    match splitAtSub "```".toList rest2 with
    | some (capture, _) => some (String.mk capture)
    | none => none

/-- Fuelled scan of the global replace `/,\s*([\]}])/g → $1` that deletes
trailing commas before a closing bracket; every step consumes at least one
character, so fuel equal to the input length always suffices. -/
def stripTrailingCommasAux : Nat → List Char → List Char
  | 0, cs => cs
  | _ + 1, [] => []
  | fuel + 1, c :: cs =>
    if c = ',' then
      match (takeSpaces cs).2 with
      | b :: rest =>
        if b = ']' ∨ b = '}' then b :: stripTrailingCommasAux fuel rest
        else c :: stripTrailingCommasAux fuel cs
      | [] => c :: stripTrailingCommasAux fuel cs
    else c :: stripTrailingCommasAux fuel cs

/-- The trailing-comma cleanup applied before `JSON.parse` in tier 1. -/
def stripTrailingCommas (cs : List Char) : List Char :=
  stripTrailingCommasAux cs.length cs

/-- Outcomes of the runtime primitives used by `parseOptimizationResult`:
`JSON.parse` (which may throw) and the five field-probe regex extractions
of tier 3, together with the quote-normalising cleanup chain applied to a
recovered suggestions array before re-parsing. -/
structure RecoveryEnv where
  jsonParse : String → Except String Json
  summaryMatch : String → Option String
  stepsMatch : String → Option Nat
  timeMatch : String → Option String
  suggestionsMatch : String → Option String
  workflowMatch : String → Option String
  cleanSuggestions : String → String

/-- The fallback suggestion substituted when a recovered suggestions array
fails to parse. -/
def fallbackSuggestionsJson : Json :=
  Json.arr [Json.obj
    [("title", Json.str "Process Optimization"),
     ("description", Json.str "Review and optimize the workflow to reduce unnecessary steps."),
     ("timeSaved", Json.str "Varies based on implementation")]]

/-- utils/metricsExtractor.js `defaultOptimizationResult`. -/
def defaultOptimizationResult : Json :=
  Json.obj
    [("summary", Json.str "Optimization completed successfully, but result parsing failed."),
     ("totalSteps", Json.null),
     ("totalTime", Json.null),
     ("suggestions", Json.arr
       [Json.obj
         [("title", Json.str "Streamline Approval Process"),
          ("description", Json.str
            "Consolidate multiple approval steps into a single, parallel approval workflow."),
          ("timeSaved", Json.str "Approximately 30% of approval time")],
        Json.obj
         [("title", Json.str "Automate Manual Steps"),
          ("description", Json.str
            "Replace manual processes with automation where possible."),
          ("timeSaved", Json.str "Up to 40% of manual processing time")]]),
     ("stepTimes", Json.arr [])]

/-- The tier-3 field-by-field recovery object: each probe that finds its
field contributes it; a suggestions array that is found but fails to parse
is replaced by the fallback suggestion instead of being omitted. -/
def tier3Object (env : RecoveryEnv) (result : String) : Json :=
  Json.obj
    ((match env.summaryMatch result with
      | some v => [("summary", Json.str v)]
      | none => []) ++
     (match env.stepsMatch result with
      | some n => [("totalSteps", Json.num n)]
      | none => []) ++
     (match env.timeMatch result with
      | some v => [("totalTime", Json.str v)]
      | none => []) ++
     (match env.suggestionsMatch result with
      | some arrText =>
        match env.jsonParse (env.cleanSuggestions arrText) with
        | Except.ok v => [("suggestions", v)]
        | Except.error _ => [("suggestions", fallbackSuggestionsJson)]
      | none => []) ++
     (match env.workflowMatch result with
      | some v => [("workflow", Json.str v)]
      | none => []))

/-- The body of `parseOptimizationResult` on a string input: tier 1 (fenced
block, trailing commas stripped), then tier 2 (whole trimmed text), then
tier 3 (field-by-field recovery).  Total — every `JSON.parse` failure is
caught and falls through to the next tier. -/
def parseBody (env : RecoveryEnv) (result : String) : Json :=
  let tier3 := tier3Object env result
  let tier2 :=
    match env.jsonParse (String.mk (trimChars result.toList)) with
    | Except.ok v => v
    | Except.error _ => tier3
  match findFencedBlock result with
  | some block =>
    match env.jsonParse (String.mk (stripTrailingCommas (trimChars block.toList))) with
    | Except.ok v => v
    | Except.error _ => tier2
  | none => tier2

/-- utils/metricsExtractor.js `parseOptimizationResult`.  A `none` input
models `null`/`undefined`, on which `result.match` throws; the outer catch
turns any such throw into the fixed default object. -/
def parseOptimizationResult (env : RecoveryEnv) (input : Option String) : Except String Json :=
  match
    (match input with
     | none => Except.error "result.match is not a function"
     | some s => Except.ok (parseBody env s) : Except String Json)
  with
  | Except.ok v => Except.ok v
  | Except.error _ => Except.ok defaultOptimizationResult

/-! ## utils/documentParser.js — `parseDocument` and the per-format extractors

External libraries (pdf-parse, mammoth, xlsx) are modelled by the recorded
outcome of their call on the current input: `Except.error` is a thrown
exception carrying its message.  The in-repo post-processing helpers of the
PDF success path (`processPdfText`, `checkForDiagramIndicators`,
`extractDocumentTitle`, `extractSections`, `extractKeywords`) are total
string transformations and are likewise taken as parameters — the claims
under verification concern only parse success/failure shape, which the
embedding reproduces call by call. -/

/-- JavaScript try/catch over an exception-carrying computation. -/
def tryCatchE {α : Type} (body : Except String α) (handler : String → Except String α) :
    Except String α :=
  match body with
  | Except.ok v => Except.ok v
  | Except.error e => handler e

/-- Content of a document record: free text or tabular row-objects. -/
inductive Content where
  | text : String → Content
  | rows : List (List (String × String)) → Content
deriving Repr, DecidableEq

/-- Structured metadata attached to parsed or combined records. -/
structure StructuredData where
  title : String := ""
  sections : List (String × String) := []
  keywords : List String := []
  diagramDetected : Bool := false
  documentCount : Nat := 0
  documentTypes : List String := []
  documentNames : List String := []
deriving Repr, DecidableEq

/-- The record produced by the per-format extractors and the combiner.
Opaque library metadata (`info`, `rawMetadata`) is omitted. -/
structure ExtractedData where
  content : Content
  type : String
  parsed : Bool
  error : Option String := none
  headers : Option (List String) := none
  structuredData : Option StructuredData := none
  fileNames : Option (List String) := none
  messages : List String := []
  pageCount : Option Nat := none
  sheetNames : Option (List String) := none
  note : Option String := none
  containsDiagrams : Option Bool := none
deriving Repr, DecidableEq

/-- Result of a pdf-parse call. -/
structure PdfData where
  text : String
  numpages : Nat
deriving Repr, DecidableEq

/-- Result of an XLSX read: sheet names and the first sheet as rows of
(stringified) cells. -/
structure XlsxData where
  sheetNames : List String
  firstSheetRows : List (List String)
deriving Repr, DecidableEq

/-- Uploaded file content: a UTF-8 string, a byte buffer (carried as its
non-fatal UTF-8 decoding, which is how the code consumes it), or another
value (carried as its `JSON.stringify` rendering). -/
inductive FileContent where
  | str : String → FileContent
  | buf : String → FileContent
  | other : String → FileContent
deriving Repr, DecidableEq

/-- Recorded outcomes of the external library calls and in-repo text
helpers used by `parseDocument` on the current input. -/
structure ParserEnv where
  pdfPrimary : Except String PdfData
  pdfFallback : Except String PdfData
  mammoth : Except String (String × List String)
  xlsxRead : Except String XlsxData
  processPdfText : String → String
  checkForDiagramIndicators : String → Option String → Bool
  extractDocumentTitle : PdfData → Option String → String
  extractSections : String → List (String × String)
  extractKeywords : String → List String

/-- utils/documentParser.js `parsePdfContent`: primary structured parse,
option-free fallback parse, then the captured failure record carrying the
primary error's message. -/
def parsePdfContent (env : ParserEnv) (fileName : Option String) : Except String ExtractedData :=
  tryCatchE
    (match env.pdfPrimary with
     | Except.error e => Except.error e
     | Except.ok data =>
       let processedText := env.processPdfText data.text
       let mightContainDiagrams := env.checkForDiagramIndicators processedText fileName
       Except.ok
         { content := Content.text processedText,
           type := "pdf",
           parsed := true,
           pageCount := some data.numpages,
           structuredData := some
             { title := env.extractDocumentTitle data fileName,
               sections := env.extractSections processedText,
               keywords := env.extractKeywords processedText,
               diagramDetected := mightContainDiagrams },
           containsDiagrams := some mightContainDiagrams })
    (fun error =>
      tryCatchE
        (match env.pdfFallback with
         | Except.error e => Except.error e
         | Except.ok data =>
           Except.ok
             { content := Content.text data.text,
               type := "pdf",
               parsed := true,
               pageCount := some data.numpages,
               note := some "Used fallback parsing method - structure may be impacted" })
        (fun _ =>
          Except.ok
            { content := Content.text
                ("Failed to parse PDF content after multiple attempts: " ++ error),
              type := "pdf",
              parsed := false,
              error := some error }))

/-- utils/documentParser.js `parseDocxContent`. -/
def parseDocxContent (env : ParserEnv) : Except String ExtractedData :=
  tryCatchE
    (match env.mammoth with
     | Except.error e => Except.error e
     | Except.ok res =>
       Except.ok
         { content := Content.text res.1, type := "docx", parsed := true,
           messages := res.2 })
    (fun error =>
      Except.ok
        { content := Content.text ("Failed to parse DOCX content: " ++ error),
          type := "docx", parsed := false, error := some error })

/-- JavaScript object-property assignment on a string-keyed record:
update in place when the key exists, append otherwise. -/
def objSet : List (String × String) → String → String → List (String × String)
  | [], k, v => [(k, v)]
  | (k', v') :: t, k, v =>
    if k' = k then (k, v) :: t else (k', v') :: objSet t k v

/-- JavaScript property read. -/
def objGet : List (String × String) → String → Option String
  | [], _ => none
  | (k', v') :: t, k => if k' = k then some v' else objGet t k

/-- JavaScript `String.split` by a literal separator `p :: ps`. -/
def splitOnSub (p : Char) (ps : List Char) : List Char → List (List Char)
  | [] => [[]]
  | c :: cs =>
    if (p :: ps).isPrefixOf (c :: cs) then
      [] :: splitOnSub p ps (cs.drop ps.length)
    else
      match splitOnSub p ps cs with
      | h :: t => (c :: h) :: t
      | [] => [[c]]
termination_by cs => cs.length
decreasing_by
  · simp only [List.length_cons]
    have := List.length_drop ps.length cs
    omega
  · simp

/-- Is the character a quote as far as the field-cleanup regex
`/^["'](.*)["']$/` is concerned? -/
def isQuoteChar (c : Char) : Bool :=
  c = '"' || c = '\''

/-- The field cleanup `replace(/^["'](.*)["']$/, '$1')`: strip one leading
and one trailing quote character when both are present. -/
def stripQuotesOnce (cs : List Char) : List Char :=
  if decide (2 ≤ cs.length) && cs.head?.elim false isQuoteChar &&
      cs.getLast?.elim false isQuoteChar then
    (cs.drop 1).dropLast
  else cs

/-- The quote-aware single-pass field scanner of `parseCSVLine`. -/
def parseCSVLineAux (delim : Char) :
    List Char → Option Char → Bool → List Char → List String → List String
  | [], _, _, cur, acc =>
    if cur.isEmpty then acc
    else acc ++ [String.mk (stripQuotesOnce (trimChars cur))]
  | c :: rest, prev, insideQuotes, cur, acc =>
    if c = '"' && prev ≠ some '\\' then
      parseCSVLineAux delim rest (some c) (!insideQuotes) cur acc
    else if c = delim && !insideQuotes then
      parseCSVLineAux delim rest (some c) insideQuotes []
        (acc ++ [String.mk (stripQuotesOnce (trimChars cur))])
    else
      parseCSVLineAux delim rest (some c) insideQuotes (cur ++ [c]) acc

/-- utils/documentParser.js `parseCSVLine`. -/
def parseCSVLine (line : List Char) (delim : Char) : List String :=
  parseCSVLineAux delim line none false [] []

/-- Row-object construction shared by the CSV and Excel extractors:
`row[headers[j]] = vals[j] !== undefined ? vals[j] : ''`. -/
def buildCsvRow (headers : List String) (vals : List String) : List (String × String) :=
  headers.enum.foldl (fun row jh => objSet row jh.2 (vals.getD jh.1 "")) []

/-- utils/documentParser.js `parseCsvContent`.  On a non-string content the
very first method call throws, landing in the catch with a `'text'`-typed
failure record. -/
def parseCsvContent (content : FileContent) : Except String ExtractedData :=
  tryCatchE
    (match content with
     | FileContent.str s =>
       let lines :=
         if containsSub s.toList ['\r', '\n'] then splitOnSub '\r' ['\n'] s.toList
         else splitOnSub '\n' [] s.toList
       match lines with
       | [] => Except.ok { content := Content.text s, type := "csv", parsed := false }
       | firstLine :: restLines =>
         let delimiter :=
           if containsSub firstLine ['\t'] && (splitOnSub '\t' [] firstLine).length > 1 then '\t'
           else if containsSub firstLine [';'] && (splitOnSub ';' [] firstLine).length > 1 then ';'
           else ','
         let headers := (splitOnSub delimiter [] firstLine).map
           (fun h => String.mk (stripQuotesOnce (trimChars h)))
         let data := restLines.foldl
           (fun acc line =>
             if trimChars line = [] then acc
             else acc ++ [buildCsvRow headers (parseCSVLine line delimiter)])
           []
         Except.ok
           { content := Content.rows data, headers := some headers,
             type := "csv", parsed := true }
     | FileContent.buf _ => Except.error "content.includes is not a function"
     | FileContent.other _ => Except.error "content.includes is not a function")
    (fun error =>
      Except.ok
        { content := (match content with
            | FileContent.str s => Content.text s
            | FileContent.buf b => Content.text b
            | FileContent.other o => Content.text o),
          type := "text", parsed := false, error := some error })

/-- utils/documentParser.js `parseExcelContent`. -/
def parseExcelContent (env : ParserEnv) : Except String ExtractedData :=
  tryCatchE
    (match env.xlsxRead with
     | Except.error e => Except.error e
     | Except.ok wb =>
       match wb.firstSheetRows with
       | [] =>
         Except.ok
           { content := Content.text "Excel file appears to be empty",
             type := "excel", parsed := false }
       | row0 :: restRows =>
         let headers := row0.map (fun h => String.mk (trimChars h.toList))
         let data := restRows.foldl
           (fun acc r => if r.isEmpty then acc else acc ++ [buildCsvRow headers r])
           []
         Except.ok
           { content := Content.rows data, headers := some headers,
             type := "excel", parsed := true, sheetNames := some wb.sheetNames })
    (fun error =>
      Except.ok
        { content := Content.text ("Failed to parse Excel file: " ++ error),
          type := "excel", parsed := false, error := some error })

/-- The `\r\n → \n` then `\r → \n` line-ending normalization. -/
def normalizeCR : List Char → List Char
  | [] => []
  | '\r' :: '\n' :: rest => '\n' :: normalizeCR rest
  | '\r' :: rest => '\n' :: normalizeCR rest
  | c :: rest => c :: normalizeCR rest

/-- The `/\n{3,}/g → \n\n` collapse of long blank runs. -/
def collapseNewlines : List Char → List Char
  | [] => []
  | c :: rest =>
    if c = '\n' then
      let run := rest.takeWhile (fun x => x = '\n')
      (if run.length + 1 ≥ 3 then ['\n', '\n'] else List.replicate (run.length + 1) '\n') ++
        collapseNewlines (rest.drop run.length)
    else c :: collapseNewlines rest
termination_by cs => cs.length
decreasing_by
  · simp only [List.length_cons, List.length_drop]
    omega
  · simp

/-- utils/documentParser.js `parseTextContent` (total: the non-fatal UTF-8
decode never throws). -/
def parseTextContent (content : FileContent) : ExtractedData :=
  let textContent :=
    match content with
    | FileContent.buf decoded => decoded
    | FileContent.str s => s
    | FileContent.other stringified => stringified
  let normalizedText := String.mk (collapseNewlines (normalizeCR textContent.toList))
  { content := Content.text normalizedText, type := "text", parsed := true }

/-- JavaScript `mimeType && mimeType.includes(pat)`. -/
def mimeIncludes (m : Option String) (pat : String) : Bool :=
  match m with
  | some s => containsSub s.toList pat.toList
  | none => false

/-- utils/documentParser.js `parseDocument`: media-type dispatch plus the
outer catch that turns any escaping failure into an `'error'`-typed
record. -/
def parseDocument (env : ParserEnv) (fileContent : FileContent) (mimeType : Option String)
    (fileName : Option String) : Except String ExtractedData :=
  tryCatchE
    (if mimeIncludes mimeType "pdf" then parsePdfContent env fileName
     else if mimeIncludes mimeType "msword" ||
         mimeIncludes mimeType "officedocument.wordprocessingml.document" then
       parseDocxContent env
     else if mimeIncludes mimeType "csv" then parseCsvContent fileContent
     else if mimeIncludes mimeType "excel" || mimeIncludes mimeType "spreadsheetml.sheet" then
       parseExcelContent env
     else Except.ok (parseTextContent fileContent))
    (fun error =>
      Except.ok
        { content := Content.text ("Failed to parse document: " ++ error),
          type := "error", parsed := false, error := some error })

/-! ## utils/documentGenerator.js — `generateFormattedDocument` provider flow,
and pages/api/optimize-process.js — the provider-fallback section of the
handler.  The provider is modelled as the sequence of outcomes of its calls
(`call 0` is the first attempted call, `call 1` the next, …); each embedded
function also reports how many provider calls it made. -/

/-- The wrapping template of `processGeneratedContent` (CSS braces written
as hex escapes). -/
def htmlWrapTemplate (content : String) : String :=
  "\n<!DOCTYPE html>\n<html>\n<head>\n    <meta charset=\"UTF-8\">\n    <meta name=\"viewport\" content=\"width=device-width, initial-scale=1.0\">\n    <style>\n        body \x7b font-family: Arial, sans-serif; line-height: 1.6; color: #333; \x7d\n        table \x7b width: 100%; border-collapse: collapse; margin-bottom: 20px; \x7d\n        th, td \x7b padding: 10px; text-align: left; vertical-align: top; border: 1px solid #ddd; \x7d\n        th \x7b background-color: #f2f2f2; font-weight: bold; \x7d\n        h2, h3 \x7b color: #444; margin-top: 20px; \x7d\n        .document-title \x7b text-align: center; margin-bottom: 30px; \x7d\n        .document-source \x7b color: #777; font-style: italic; margin-bottom: 10px; \x7d\n        .file-section \x7b border-top: 2px solid #e0e0e0; margin-top: 40px; padding-top: 20px; \x7d\n    </style>\n</head>\n<body>\n    " ++
    content ++ "\n</body>\n</html>"

/-- utils/documentGenerator.js `processGeneratedContent`. -/
def processGeneratedContent (content : String) : String :=
  if !containsSub content.toList "<!DOCTYPE html>".toList &&
      !containsSub (content.toList.map Char.toLower) "<html".toList then
    htmlWrapTemplate content
  else content

/-- A generated document artifact `{content, format}`. -/
structure GenDoc where
  content : String
  format : String
deriving Repr, DecidableEq

/-- utils/documentGenerator.js `generateFormattedDocument`: primary provider
call; on failure one fallback call; if the fallback also fails, rethrow the
original error.  Returns the outcome and the number of provider calls
made. -/
def generateFormattedDocument (call : Nat → Except String String) :
    Except String GenDoc × Nat :=
  match call 0 with
  | Except.ok text =>
    (Except.ok { content := processGeneratedContent text, format := "html" }, 1)
  | Except.error e1 =>
    match call 1 with
    | Except.ok text =>
      (Except.ok { content := processGeneratedContent text, format := "html" }, 2)
    | Except.error _ => (Except.error e1, 2)

/-- pages/api/optimize-process.js, the provider section of the handler:
primary call in a try; the catch issues the fallback call with no guard of
its own, so a fallback failure propagates (to the handler's outer catch). -/
def optimizeProviderCalls (call : Nat → Except String String) :
    Except String String × Nat :=
  match call 0 with
  | Except.ok t => (Except.ok t, 1)
  | Except.error _ => (call 1, 2)

/-- What the optimize-process handler sends back as far as provider errors
are concerned: the outer catch turns an escaping error into a 500 payload
whose `message` is that error's message. -/
inductive ApiOutcome where
  | success : String → ApiOutcome
  | failure : Nat → String → String → ApiOutcome
deriving Repr, DecidableEq

/-- Provider-error surfacing of the optimize-process handler. -/
def optimizeHandlerOutcome (call : Nat → Except String String) : ApiOutcome :=
  match optimizeProviderCalls call with
  | (Except.ok t, _) => ApiOutcome.success t
  | (Except.error e, _) => ApiOutcome.failure 500 "Failed to optimize process" e

/-! ## pages/api/process-documents.js — `combineDocumentData` -/

/-- Insertion-ordered deduplicating insertion (JavaScript `Set.add`). -/
def dedupAppend (acc : List String) (x : String) : List String :=
  if acc.contains x then acc else acc ++ [x]

/-- Insertion-ordered deduplication of a list (`Array.from(new Set(...))`). -/
def dedupList (xs : List String) : List String :=
  xs.foldl dedupAppend []

/-- One processed upload: file name, parse flag and the extracted record
(never read when `parsed` is false). -/
structure ProcessedDoc where
  fileName : String
  parsed : Bool
  extractedData : ExtractedData
deriving Repr, DecidableEq

/-- String escaping of `JSON.stringify`. -/
def escapeJsonStr (s : String) : String :=
  String.join (s.toList.map fun c =>
    if c = '\\' then "\\\\"
    else if c = '"' then "\\\""
    else if c = '\n' then "\\n"
    else if c = '\r' then "\\r"
    else if c = '\t' then "\\t"
    else String.mk [c])

/-- `JSON.stringify` of tabular rows. -/
def jsStringifyRows (rs : List (List (String × String))) : String :=
  "[" ++ String.intercalate ","
    (rs.map fun row =>
      "\x7b" ++ String.intercalate ","
        (row.map fun kv => "\"" ++ escapeJsonStr kv.1 ++ "\":\"" ++ escapeJsonStr kv.2 ++ "\"") ++
      "\x7d") ++ "]"

/-- `typeof content === 'string' ? content : JSON.stringify(content)`. -/
def contentToStr (c : Content) : String :=
  match c with
  | Content.text s => s
  | Content.rows rs => jsStringifyRows rs

/-- Row standardization of the tabular-merge branch: initialise every union
header to the empty string, copy the row's values for known headers, then
record provenance in `Source File`. -/
def standardizeRow (allHeaders : List String) (row : List (String × String))
    (fileName : String) : List (String × String) :=
  let init := allHeaders.foldl (fun acc h => objSet acc h "") []
  let filled := row.foldl
    (fun acc kv => if allHeaders.contains kv.1 then objSet acc kv.1 kv.2 else acc) init
  objSet filled "Source File" fileName

/-- Tabular-to-text degradation of the mixed branch: comma-joined header
line then comma-joined rows, quoting values that contain the delimiter. -/
def renderRowsCsv (headers : List String) (rs : List (List (String × String))) : String :=
  String.intercalate "," headers ++ "\n" ++
    rs.foldl
      (fun acc row =>
        acc ++ String.intercalate ","
          (headers.map fun h =>
            let v := (objGet row h).getD ""
            if containsSub v.toList [','] then "\"" ++ v ++ "\"" else v) ++ "\n")
      ""

/-- pages/api/process-documents.js `combineDocumentData`. -/
def combineDocumentData (processedDocuments : List ProcessedDoc) : ExtractedData :=
  let validDocuments := processedDocuments.filter (fun d => d.parsed)
  match validDocuments with
  | [] =>
    { content := Content.text "No valid documents to process",
      type := "text", parsed := false }
  | [d] => d.extractedData
  | _ =>
    let docTypes := dedupList (validDocuments.map (fun d => d.extractedData.type))
    if docTypes.length = 1 && (docTypes.contains "csv" || docTypes.contains "excel") then
      let allHeaders := dedupList (validDocuments.foldl
        (fun acc doc =>
          match doc.extractedData.headers with
          | some hs => acc ++ hs
          | none => acc) [])
      let contentRows := validDocuments.foldl
        (fun acc doc =>
          match doc.extractedData.content with
          | Content.rows rs =>
            acc ++ rs.map (fun row => standardizeRow allHeaders row doc.fileName)
          | _ => acc) []
      let headersOut :=
        if allHeaders.contains "Source File" then allHeaders
        else allHeaders ++ ["Source File"]
      { type := docTypes.headD "",
        parsed := true,
        content := Content.rows contentRows,
        headers := some headersOut,
        fileNames := some (validDocuments.map (fun d => d.fileName)) }
    else if docTypes.contains "pdf" || docTypes.contains "docx" ||
        docTypes.contains "text" then
      let contentStr := validDocuments.foldl
        (fun acc doc =>
          acc ++ "\n\n===== DOCUMENT: " ++ doc.fileName ++ " =====\n\n" ++
            contentToStr doc.extractedData.content) ""
      let allKeywords := dedupList (validDocuments.foldl
        (fun acc doc =>
          match doc.extractedData.structuredData with
          | some sd => acc ++ sd.keywords
          | none => acc) [])
      { type := "text",
        parsed := true,
        content := Content.text contentStr,
        fileNames := some (validDocuments.map (fun d => d.fileName)),
        structuredData := some
          { documentCount := validDocuments.length,
            documentTypes := docTypes,
            documentNames := validDocuments.map (fun d => d.fileName),
            keywords := allKeywords } }
    else
      let contentStr := validDocuments.foldl
        (fun acc doc =>
          let c :=
            match doc.extractedData.content with
            | Content.text s => s
            | Content.rows rs =>
              let headers :=
                match doc.extractedData.headers with
                | some hs => hs
                | none =>
                  match rs with
                  | r0 :: _ => r0.map (fun kv => kv.1)
                  | [] => []
              renderRowsCsv headers rs
          acc ++ "\n\n===== DOCUMENT: " ++ doc.fileName ++ " (" ++
            doc.extractedData.type ++ ") =====\n\n" ++ c) ""
      { type := "text",
        parsed := true,
        content := Content.text contentStr,
        fileNames := some (validDocuments.map (fun d => d.fileName)) }

/-- A parser environment in which every external library call fails
(concrete instance used to witness the failure contracts). -/
def envAllFail : ParserEnv :=
  { pdfPrimary := Except.error "bad pdf",
    pdfFallback := Except.error "bad pdf again",
    mammoth := Except.error "bad docx",
    xlsxRead := Except.error "bad xlsx",
    processPdfText := fun s => s,
    checkForDiagramIndicators := fun _ _ => false,
    extractDocumentTitle := fun _ _ => "Untitled Document",
    extractSections := fun _ => [],
    extractKeywords := fun _ => [] }

/-- A recovery environment consistent with the input
`"suggestions: [}{]"`: no fenced block, no summary/steps/time/workflow
probe hits, the suggestions probe captures the bracketed text `[}{]`, the
cleanup chain leaves it unchanged, and `JSON.parse` rejects everything it
is given (all of which the real regexes and parser do on these exact
strings). -/
def envSuggestionsBad : RecoveryEnv :=
  { jsonParse := fun _ => Except.error "Unexpected token",
    summaryMatch := fun _ => none,
    stepsMatch := fun _ => none,
    timeMatch := fun _ => none,
    suggestionsMatch := fun _ => some "[\x7d\x7b]",
    workflowMatch := fun _ => none,
    cleanSuggestions := fun t => t }

/-- Shape invariant of every duration-token match: a nonempty digit
capture, whitespace filler, and a unit whose lowercasing is one of the
alternation's literals. -/
def wfTimeToken (t : TimeToken) : Prop :=
  t.numStr ≠ [] ∧ (∀ ch ∈ t.numStr, ch.isDigit = true) ∧
    (∀ ch ∈ t.ws, isJsSpace ch = true) ∧
    t.unit.map Char.toLower ∈ timeUnitAlts

/-- Modelled from the claim's aggregation rule: the hour-unit spellings. -/
def hourUnitLits : List (List Char) :=
  ["hour".toList, "hours".toList, "hr".toList, "hrs".toList, "h".toList]

/-- Modelled from the claim's aggregation rule: the day-unit spellings. -/
def dayUnitLits : List (List Char) :=
  ["day".toList, "days".toList, "d".toList]

/-- Modelled from the claim's aggregation rule, for comparison with the
code: a token with an hour unit contributes number·60 minutes, a day unit
number·8·60, and a minute unit the bare number. -/
def specTokenMinutes (t : TimeToken) : Nat :=
  let n := natOfDigits t.numStr
  let u := t.unit.map Char.toLower
  if u ∈ hourUnitLits then n * 60
  else if u ∈ dayUnitLits then n * 8 * 60
  else n

/-! ## Theorems -/

/-- Closed form of the padding loop: append exactly the synthesized
placeholder entries for positions `length+1 … n`. -/
theorem padStepTimes_eq (sts : List StepTime) (n : Nat) :
    padStepTimes sts n =
      sts ++ (List.range (n - sts.length)).map (fun i => mkPadEntry (sts.length + i)) := by
  generalize hk : n - sts.length = k
  induction k generalizing sts with
  | zero =>
    rw [padStepTimes]
    have hnlt : ¬ sts.length < n := by omega
    rw [dif_neg hnlt]
    simp [hk]
  | succ k ih =>
    have hlt : sts.length < n := by omega
    rw [padStepTimes, dif_pos hlt]
    have hlen : n - (sts ++ [mkPadEntry sts.length]).length = k := by
      simp only [List.length_append, List.length_cons, List.length_nil]
      omega
    rw [ih _ hlen]
    simp only [List.length_append, List.length_cons, List.length_nil,
      List.append_assoc, List.singleton_append]
    rw [List.range_succ_eq_map, List.map_cons, List.map_map]
    refine congrArg (fun l => sts ++ l) ?_
    refine congrArg₂ List.cons ?_ ?_
    · exact congrArg mkPadEntry (by omega)
    · apply List.map_congr_left
      intro i hi
      exact congrArg mkPadEntry (by omega)

/-- C1 (amended): `mergeMetrics` itself performs no stepTimes-length
normalization (see the counterexample `mergeMetrics_no_normalization`);
the truncate-or-pad normalization with synthesized
`{step: N, stepName: "Step N", time: "Not specified"}` entries lives in
the document-metrics extraction (`extractProcessMetrics` of
utils/documentGenerator.js, embedded here as `adjustStepTimes`), and for
every step-times list and every `totalSteps > 0` — in particular 1, 5 and
50, with inputs both longer and shorter — its output length equals
`totalSteps`: excess trailing entries are truncated, and missing entries
are padded with exactly those synthesized entries. -/
theorem adjustStepTimes_normalizes (sts : List StepTime) (n : Nat) (hn : 0 < n) :
    (adjustStepTimes sts n).length = n ∧
    (n ≤ sts.length → adjustStepTimes sts n = sts.take n) ∧
    (sts.length < n →
      adjustStepTimes sts n =
        sts ++ (List.range (n - sts.length)).map (fun i => mkPadEntry (sts.length + i))) := by
  unfold adjustStepTimes
  by_cases heq : sts.length = n
  · have hcond : (decide (sts.length ≠ n) && decide (n > 0)) = false := by
      simp [heq]
    rw [if_neg (by simp [hcond, heq])]
    exact ⟨heq, fun _ => (heq ▸ (List.take_length sts).symm : sts = sts.take n),
      fun hlt => absurd hlt (by omega)⟩
  · rw [if_pos (by simp [heq, hn])]
    by_cases hgt : sts.length > n
    · rw [if_pos hgt, padStepTimes_eq]
      have hlen : (sts.take n).length = n := by
        rw [List.length_take]
        omega
      refine ⟨?_, fun _ => ?_, fun hlt => absurd hlt (by omega)⟩
      · rw [hlen]
        simp [hlen]
      · rw [hlen]
        simp
    · have hlt : sts.length < n := by omega
      rw [if_neg hgt, padStepTimes_eq]
      refine ⟨?_, fun hle => absurd hle (by omega), fun _ => rfl⟩
      simp only [List.length_append, List.length_map, List.length_range]
      omega

/-- Witness for C1: the normalization theorem applied at a short list with
`totalSteps = 5`. -/
theorem adjustStepTimes_normalizes_witness :
    (adjustStepTimes [{ step := "1", stepName := "A", time := "2 min" }] 5).length = 5 :=
  (adjustStepTimes_normalizes [{ step := "1", stepName := "A", time := "2 min" }] 5
    (by decide)).1

/-- C1 counterexample: `mergeMetrics` returns `totalSteps = 2 > 0` together
with three step-time entries — the merged metrics violate
`stepTimes.length = totalSteps`, so the normalization claimed for the
merger does not happen there. -/
theorem mergeMetrics_no_normalization :
    0 < (mergeMetrics ⟨2, "Unknown", [], [], none⟩
      (some ⟨0, "Unknown",
        [⟨"1", "A", "5 min"⟩, ⟨"2", "B", "5 min"⟩, ⟨"3", "C", "5 min"⟩], [], none⟩)
      none).totalSteps ∧
    (mergeMetrics ⟨2, "Unknown", [], [], none⟩
      (some ⟨0, "Unknown",
        [⟨"1", "A", "5 min"⟩, ⟨"2", "B", "5 min"⟩, ⟨"3", "C", "5 min"⟩], [], none⟩)
      none).stepTimes.length ≠
    (mergeMetrics ⟨2, "Unknown", [], [], none⟩
      (some ⟨0, "Unknown",
        [⟨"1", "A", "5 min"⟩, ⟨"2", "B", "5 min"⟩, ⟨"3", "C", "5 min"⟩], [], none⟩)
      none).totalSteps := by
  constructor
  · decide
  · decide

/-- C4: the diagram-metrics extractor on the specific two-box diagram with
a 30-minute and a 1-hour annotation yields two steps and a total of
"1 hour 30 minutes". -/
theorem extractWorkflowMetrics_example :
    (extractWorkflowMetrics
      (some "graph TD\nA[Step 1: Review (30 min)] --> B[Step 2: Approve (1 hour)]")).totalSteps
      = 2 ∧
    (extractWorkflowMetrics
      (some "graph TD\nA[Step 1: Review (30 min)] --> B[Step 2: Approve (1 hour)]")).totalTime
      = "1 hour 30 minutes" := by
  exact ⟨rfl, rfl⟩

/-- Merging any metrics record with itself changes nothing: every fallback
assignment either does not fire or rewrites a field with its own value. -/
theorem mergeBase_self (m : ProcessMetrics) : mergeBase m (some m) = m := by
  rcases m with ⟨ts, tt, st, te, opt⟩
  unfold mergeBase
  by_cases h1 : ts = 0 <;> by_cases h2 : tt = "Unknown" <;>
    simp [h1, h2, jsOrStr, Bool.and_not_self]

/-- Self-merge is the identity for the full merger with no optimization
metrics. -/
theorem mergeMetrics_self (m : ProcessMetrics) : mergeMetrics m (some m) none = m := by
  unfold mergeMetrics
  simpa using mergeBase_self m

/-- C5: `mergeMetrics` is idempotent — merging an already-normalized
metrics record with itself returns it unchanged, and re-running the merge
on any already-merged output is a no-op. -/
theorem mergeMetrics_merge_idempotent :
    (∀ m : ProcessMetrics, m.stepTimes.length = m.totalSteps →
      mergeMetrics m (some m) none = m) ∧
    (∀ (w : ProcessMetrics) (d : Option ProcessMetrics) (o : Option OptMetricsIn),
      mergeMetrics (mergeMetrics w d o) (some (mergeMetrics w d o)) none =
        mergeMetrics w d o) :=
  ⟨fun m _ => mergeMetrics_self m, fun w d o => mergeMetrics_self (mergeMetrics w d o)⟩

/-- Witness for C5: self-merge at a concrete normalized record. -/
theorem mergeMetrics_merge_idempotent_witness :
    mergeMetrics ⟨1, "1 hour", [⟨"1", "A", "1 hour"⟩], [], none⟩
      (some ⟨1, "1 hour", [⟨"1", "A", "1 hour"⟩], [], none⟩) none =
      ⟨1, "1 hour", [⟨"1", "A", "1 hour"⟩], [], none⟩ :=
  mergeMetrics_merge_idempotent.1 ⟨1, "1 hour", [⟨"1", "A", "1 hour"⟩], [], none⟩ (by decide)

/-- C9 (amended): on a primary provider failure exactly one fallback call
is attempted and no further retries happen at either entry point; when the
fallback also fails, `generateFormattedDocument` (document formatting)
rethrows the ORIGINAL error, but the optimize-process handler's unguarded
fallback lets the FALLBACK call's error escape to its outer catch, which
surfaces that second error in the 500 payload. -/
theorem providerFallback_surfacing (call : Nat → Except String String) (e1 e2 : String)
    (h0 : call 0 = Except.error e1) (h1 : call 1 = Except.error e2) :
    generateFormattedDocument call = (Except.error e1, 2) ∧
    optimizeProviderCalls call = (Except.error e2, 2) ∧
    optimizeHandlerOutcome call = ApiOutcome.failure 500 "Failed to optimize process" e2 := by
  refine ⟨?_, ?_, ?_⟩ <;>
    simp [generateFormattedDocument, optimizeProviderCalls, optimizeHandlerOutcome, h0, h1]

/-- Witness for C9: both calls fail with distinct messages. -/
theorem providerFallback_surfacing_witness :
    generateFormattedDocument
        (fun n => if n = 0 then Except.error "p" else Except.error "q") =
      (Except.error "p", 2) ∧
    optimizeProviderCalls
        (fun n => if n = 0 then Except.error "p" else Except.error "q") =
      (Except.error "q", 2) ∧
    optimizeHandlerOutcome
        (fun n => if n = 0 then Except.error "p" else Except.error "q") =
      ApiOutcome.failure 500 "Failed to optimize process" "q" :=
  providerFallback_surfacing
    (fun n => if n = 0 then Except.error "p" else Except.error "q") "p" "q" rfl rfl

/-- C9 counterexample: with a primary error "primary failure" and a
fallback error "fallback failure", the optimization entry point surfaces
the fallback's error, not the original one the claim requires. -/
theorem optimize_surfaces_fallback_error :
    optimizeHandlerOutcome
        (fun n => if n = 0 then Except.error "primary failure"
         else Except.error "fallback failure") =
      ApiOutcome.failure 500 "Failed to optimize process" "fallback failure" ∧
    "fallback failure" ≠ "primary failure" := by
  constructor
  · rfl
  · decide

/-- A guarded positive return can only produce positive values (Nat). -/
theorem pos_of_guard_nat {t q : Nat} (h : (if t > 0 then some t else none) = some q) :
    0 < q := by
  split at h
  · cases h
    assumption
  · cases h

/-- A guarded positive return can only produce positive values (ℚ). -/
theorem pos_of_guard_rat {t q : ℚ} (h : (if t > 0 then some t else none) = some q) :
    0 < q := by
  split at h
  · cases h
    assumption
  · cases h

/-- The upload-local time parser returns only positive minute counts. -/
theorem parseTimeToMinutesU_pos {s : Option String} {a : Nat}
    (h : parseTimeToMinutesU s = some a) : 0 < a := by
  rcases s with _ | s
  · exact absurd h (by simp [parseTimeToMinutesU])
  · rw [parseTimeToMinutesU] at h
    by_cases hs : s = ""
    · rw [if_pos hs] at h
      cases h
    · rw [if_neg hs] at h
      exact pos_of_guard_nat h

/-- Bridge between the merger's `calculate || 30` expression and the
round-formula phrasing of the specification. -/
theorem savings_eq (mt : String) (ot : Option String) :
    (match calculateTimeSavingsPercent mt ot with
     | some p => if p = 0 then (30 : Int) else p
     | none => 30) =
    (match parseTimeToMinutesU (some mt), parseTimeToMinutesU ot with
     | some a, some b =>
       if round ((((a : ℚ) - (b : ℚ)) / (a : ℚ)) * 100) = 0 then (30 : Int)
       else round ((((a : ℚ) - (b : ℚ)) / (a : ℚ)) * 100)
     | _, _ => 30) := by
  unfold calculateTimeSavingsPercent
  rcases h1 : parseTimeToMinutesU (some mt) with _ | a
  · simp
  · rcases h2 : parseTimeToMinutesU ot with _ | b
    · simp
    · have ha : 0 < a := parseTimeToMinutesU_pos h1
      simp [ha]

/-- C6 (amended): with optimization metrics supplied, the reported
`timeSavingsPercent` equals `round((orig-opt)/orig*100)` of the two
total-time strings converted to minutes (hour/minute/day tokens, 8-hour
days) — EXCEPT that the default 30 is used not only when either side fails
to parse but also when the rounded percentage itself is 0, because the
JavaScript `|| 30` treats a computed 0 as absent. -/
theorem mergeMetrics_timeSavings (w : ProcessMetrics) (d : Option ProcessMetrics)
    (o : OptMetricsIn) :
    ((mergeMetrics w d (some o)).optimized.map (fun b => b.timeSavingsPercent)) =
      some (match parseTimeToMinutesU (some (mergeMetrics w d (some o)).totalTime),
                  parseTimeToMinutesU o.totalTime with
            | some a, some b =>
              if round ((((a : ℚ) - (b : ℚ)) / (a : ℚ)) * 100) = 0 then (30 : Int)
              else round ((((a : ℚ) - (b : ℚ)) / (a : ℚ)) * 100)
            | _, _ => 30) := by
  exact congrArg some (savings_eq (mergeBase w d).totalTime o.totalTime)

/-- C6 counterexample: identical original and optimized times ("2 hours"
both) parse successfully to 120 minutes each and the round formula gives
0, yet the merger reports the default 30 — the default is NOT used only on
parse failure. -/
theorem timeSavings_default_on_zero :
    ((mergeMetrics ⟨1, "2 hours", [], [], none⟩ none
        (some ⟨none, some "2 hours", none⟩)).optimized.map
      (fun b => b.timeSavingsPercent)) = some 30 ∧
    parseTimeToMinutesU (some "2 hours") = some 120 ∧
    round ((((120 : ℚ) - 120) / 120) * 100) = (0 : Int) := by
  have hparse : parseTimeToMinutesU (some "2 hours") = some 120 := by decide
  have hround : round ((((120 : ℚ) - 120) / 120) * 100) = (0 : Int) := by
    have h0 : (((120 : ℚ) - 120) / 120) * 100 = 0 := by norm_num
    rw [h0, round_zero]
  have hcalc : calculateTimeSavingsPercent "2 hours" (some "2 hours") = some 0 := by
    unfold calculateTimeSavingsPercent
    rw [hparse]
    simp [hround]
  have hbase : mergeBase ⟨1, "2 hours", [], [], none⟩ none =
      ⟨1, "2 hours", [], [], none⟩ := by decide
  refine ⟨?_, hparse, hround⟩
  unfold mergeMetrics
  rw [hbase]
  simp [hcalc]

/-- C10: the rational-valued `parseTimeToMinutes` of
utils/optimizationUtils.js never returns 0 — a non-positive computed total
(including `null` input, `"Unknown"`, and `"0 minutes"`) yields `null` —
and when none of the hour/minute/day unit patterns matches, the first bare
number in the string is taken as minutes. -/
theorem parseTimeToMinutesO_contract :
    (∀ (s : Option String) (q : ℚ), parseTimeToMinutesO s = some q → 0 < q) ∧
    parseTimeToMinutesO none = none ∧
    parseTimeToMinutesO (some "Unknown") = none ∧
    parseTimeToMinutesO (some "0 minutes") = none ∧
    (∀ s : String, s ≠ "" → s ≠ "Unknown" →
      findDecBeforeUnits hourAlts s.toList = none →
      findDecBeforeUnits minuteAlts s.toList = none →
      findDecBeforeUnits dayAlts s.toList = none →
      parseTimeToMinutesO (some s) =
        match firstDecimal s.toList with
        | some v => if 0 < decValue v then some (decValue v) else none
        | none => none) := by
  refine ⟨?_, rfl, by rfl, ?_, ?_⟩
  · intro s q h
    rcases s with _ | s
    · exact absurd h (by simp [parseTimeToMinutesO])
    · rw [parseTimeToMinutesO] at h
      by_cases hs : s = "" ∨ s = "Unknown"
      · rw [if_pos (by simpa using hs)] at h
        cases h
      · rw [if_neg (by simpa using hs)] at h
        exact pos_of_guard_rat h
  · rw [parseTimeToMinutesO, if_neg (by decide)]
    rw [show findDecBeforeUnits hourAlts "0 minutes".toList = none from by decide]
    rw [show findDecBeforeUnits minuteAlts "0 minutes".toList = some (['0'], []) from by decide]
    rw [show findDecBeforeUnits dayAlts "0 minutes".toList = none from by decide]
    rw [show firstDecimal "0 minutes".toList = some (['0'], []) from by decide]
    have hz : decValue (['0'], []) = 0 := by
      have : natOfDigits ['0'] = 0 := by decide
      simp [decValue, this]
    simp [hz]
  · intro s h1 h2 h3 h4 h5
    rw [parseTimeToMinutesO, if_neg (by simp [h1, h2])]
    simp only [h3, h4, h5]
    rcases hfd : firstDecimal s.toList with _ | v
    · simp [hfd]
    · simp [hfd]

/-- The rational time parser on "45 min" (helper evaluation used by the
C10 witness). -/
theorem parseTimeToMinutesO_on_45min : parseTimeToMinutesO (some "45 min") = some 45 := by
  rw [parseTimeToMinutesO, if_neg (by decide)]
  rw [show findDecBeforeUnits hourAlts "45 min".toList = none from by decide]
  rw [show findDecBeforeUnits minuteAlts "45 min".toList = some (['4', '5'], []) from by decide]
  rw [show findDecBeforeUnits dayAlts "45 min".toList = none from by decide]
  have h45 : decValue (['4', '5'], []) = 45 := by
    have : natOfDigits ['4', '5'] = 45 := by decide
    simp [decValue, this]
  simp [h45]

/-- Witness for C10: positivity applied at "45 min", and the bare-number
fallback applied at "about 7 widgets" (which has no unit tokens). -/
theorem parseTimeToMinutesO_contract_witness :
    (0 : ℚ) < 45 ∧
    parseTimeToMinutesO (some "about 7 widgets") =
      (match firstDecimal "about 7 widgets".toList with
       | some v => if 0 < decValue v then some (decValue v) else none
       | none => none) :=
  ⟨parseTimeToMinutesO_contract.1 (some "45 min") 45 parseTimeToMinutesO_on_45min,
   parseTimeToMinutesO_contract.2.2.2.2 "about 7 widgets" (by decide) (by decide)
     (by decide) (by decide) (by decide)⟩

/-- C2 (amended): `parseOptimizationResult` never throws — for every
behaviour of the runtime primitives and every input (including the
`null`/`undefined` that makes its first method call throw) it returns a
well-shaped object.  The three tiers are tried in order (fenced block with
trailing commas stripped, whole trimmed text, field-by-field recovery); in
tier 3 a probe that finds nothing omits its field, EXCEPT that a
suggestions array which is found but fails to parse is replaced by a
canned generic suggestion rather than omitted; and an input on which the
body throws yields the fixed default object with its generic summary, two
canned suggestions and empty steps/time. -/
theorem parseOptimizationResult_total :
    (∀ (env : RecoveryEnv) (input : Option String),
      (parseOptimizationResult env input).isOk = true) ∧
    (∀ env : RecoveryEnv,
      parseOptimizationResult env none = Except.ok defaultOptimizationResult) ∧
    (∀ (env : RecoveryEnv) (s : String) (block : String) (v : Json),
      findFencedBlock s = some block →
      env.jsonParse (String.mk (stripTrailingCommas (trimChars block.toList))) =
        Except.ok v →
      parseOptimizationResult env (some s) = Except.ok v) ∧
    (∀ (env : RecoveryEnv) (s : String) (v : Json),
      (findFencedBlock s = none ∨
        ∃ block e, findFencedBlock s = some block ∧
          env.jsonParse (String.mk (stripTrailingCommas (trimChars block.toList))) =
            Except.error e) →
      env.jsonParse (String.mk (trimChars s.toList)) = Except.ok v →
      parseOptimizationResult env (some s) = Except.ok v) ∧
    (∀ (env : RecoveryEnv) (s : String) (e2 : String),
      (findFencedBlock s = none ∨
        ∃ block e, findFencedBlock s = some block ∧
          env.jsonParse (String.mk (stripTrailingCommas (trimChars block.toList))) =
            Except.error e) →
      env.jsonParse (String.mk (trimChars s.toList)) = Except.error e2 →
      parseOptimizationResult env (some s) = Except.ok (tier3Object env s)) ∧
    (∀ (env : RecoveryEnv) (s : String),
      jsonField (tier3Object env s) "suggestions" =
        (match env.suggestionsMatch s with
         | none => none
         | some t =>
           match env.jsonParse (env.cleanSuggestions t) with
           | Except.ok v => some v
           | Except.error _ => some fallbackSuggestionsJson)) := by
  refine ⟨?_, ?_, ?_, ?_, ?_, ?_⟩
  · intro env input
    cases input <;> rfl
  · intro env
    rfl
  · intro env s block v hfb hjp
    simp only [String.toList] at hjp
    simp [parseOptimizationResult, parseBody, hfb, hjp]
  · intro env s v h1 h2
    simp only [String.toList] at h2
    rcases h1 with hnone | ⟨block, e, hfb, herr⟩
    · simp [parseOptimizationResult, parseBody, hnone, h2]
    · simp only [String.toList] at herr
      simp [parseOptimizationResult, parseBody, hfb, herr, h2]
  · intro env s e2 h1 h2
    simp only [String.toList] at h2
    rcases h1 with hnone | ⟨block, e, hfb, herr⟩
    · simp [parseOptimizationResult, parseBody, hnone, h2]
    · simp only [String.toList] at herr
      simp [parseOptimizationResult, parseBody, hfb, herr, h2]
  · intro env s
    unfold tier3Object jsonField
    cases hsum : env.summaryMatch s <;> cases hst : env.stepsMatch s <;>
      cases htm : env.timeMatch s <;> cases hsg : env.suggestionsMatch s <;>
      cases hwf : env.workflowMatch s <;>
      simp [hsum, hst, htm, hsg, hwf, List.find?]
    all_goals
      cases hjp : env.jsonParse (env.cleanSuggestions _) <;> simp [hjp, List.find?]

/-- Witness for C2: the tier-3 conclusion applied at a concrete environment
and input on which the earlier tiers fail. -/
theorem parseOptimizationResult_total_witness :
    parseOptimizationResult envSuggestionsBad (some "suggestions: [\x7d\x7b]") =
      Except.ok (tier3Object envSuggestionsBad "suggestions: [\x7d\x7b]") :=
  parseOptimizationResult_total.2.2.2.2.1 envSuggestionsBad "suggestions: [\x7d\x7b]"
    "Unexpected token" (Or.inl (by rfl)) (by rfl)

/-- C2 counterexample: on `"suggestions: [}{]"` the suggestions probe finds
a bracketed array that fails to parse, and the recovered object CONTAINS a
substituted canned suggestion — the field is not omitted as the claim's
"each field's failure only omits that field" requires. -/
theorem recovery_substitutes_suggestions :
    parseOptimizationResult envSuggestionsBad (some "suggestions: [\x7d\x7b]") =
      Except.ok (Json.obj [("suggestions", fallbackSuggestionsJson)]) := by
  rfl

/-- A try/catch whose handler always succeeds yields a success. -/
theorem tryCatchE_ok_isOk {α : Type} (b : Except String α) (g : String → α) :
    (tryCatchE b (fun e => Except.ok (g e))).isOk = true := by
  cases b <;> rfl

/-- C3: `parseDocument` never raises to the caller, and for every supported
media type (pdf, docx, csv, excel, text) a malformed/corrupt input — one on
which the format library fails, or for CSV a non-string payload — produces
a record with `parsed = false` and a non-empty `error`.  (Plain-text
parsing is total and never fails, so it has no malformed inputs.) -/
theorem parseDocument_failure_contract :
    (∀ (env : ParserEnv) (c : FileContent) (m f : Option String),
      (parseDocument env c m f).isOk = true) ∧
    (∀ (env : ParserEnv) (c : FileContent) (m f : Option String) (e1 e2 : String),
      mimeIncludes m "pdf" = true →
      env.pdfPrimary = Except.error e1 → env.pdfFallback = Except.error e2 → e1 ≠ "" →
      ∃ r, parseDocument env c m f = Except.ok r ∧ r.parsed = false ∧
        ∃ msg, r.error = some msg ∧ msg ≠ "") ∧
    (∀ (env : ParserEnv) (c : FileContent) (m f : Option String) (e : String),
      mimeIncludes m "pdf" = false →
      (mimeIncludes m "msword" ||
        mimeIncludes m "officedocument.wordprocessingml.document") = true →
      env.mammoth = Except.error e → e ≠ "" →
      ∃ r, parseDocument env c m f = Except.ok r ∧ r.parsed = false ∧
        ∃ msg, r.error = some msg ∧ msg ≠ "") ∧
    (∀ (env : ParserEnv) (b : String) (m f : Option String),
      mimeIncludes m "pdf" = false →
      (mimeIncludes m "msword" ||
        mimeIncludes m "officedocument.wordprocessingml.document") = false →
      mimeIncludes m "csv" = true →
      ∃ r, parseDocument env (FileContent.buf b) m f = Except.ok r ∧ r.parsed = false ∧
        ∃ msg, r.error = some msg ∧ msg ≠ "") ∧
    (∀ (env : ParserEnv) (c : FileContent) (m f : Option String) (e : String),
      mimeIncludes m "pdf" = false →
      (mimeIncludes m "msword" ||
        mimeIncludes m "officedocument.wordprocessingml.document") = false →
      mimeIncludes m "csv" = false →
      (mimeIncludes m "excel" || mimeIncludes m "spreadsheetml.sheet") = true →
      env.xlsxRead = Except.error e → e ≠ "" →
      ∃ r, parseDocument env c m f = Except.ok r ∧ r.parsed = false ∧
        ∃ msg, r.error = some msg ∧ msg ≠ "") ∧
    (∀ (env : ParserEnv) (c : FileContent) (m f : Option String),
      mimeIncludes m "pdf" = false →
      (mimeIncludes m "msword" ||
        mimeIncludes m "officedocument.wordprocessingml.document") = false →
      mimeIncludes m "csv" = false →
      (mimeIncludes m "excel" || mimeIncludes m "spreadsheetml.sheet") = false →
      parseDocument env c m f = Except.ok (parseTextContent c) ∧
        (parseTextContent c).parsed = true) := by
  refine ⟨?_, ?_, ?_, ?_, ?_, ?_⟩
  · intro env c m f
    unfold parseDocument
    exact tryCatchE_ok_isOk _ _
  · intro env c m f e1 e2 hm h0 h1 he
    let r : ExtractedData :=
      { content := Content.text ("Failed to parse PDF content after multiple attempts: " ++ e1),
        type := "pdf", parsed := false, error := some e1 }
    refine ⟨r, ?_, rfl, e1, rfl, he⟩
    simp [parseDocument, parsePdfContent, tryCatchE, hm, h0, h1, r]
  · intro env c m f e hpdf hword herr he
    let r : ExtractedData :=
      { content := Content.text ("Failed to parse DOCX content: " ++ e),
        type := "docx", parsed := false, error := some e }
    refine ⟨r, ?_, rfl, e, rfl, he⟩
    simp [parseDocument, parseDocxContent, tryCatchE, hpdf, hword, herr, r]
  · intro env b m f hpdf hword hcsv
    let r : ExtractedData :=
      { content := Content.text b, type := "text", parsed := false,
        error := some "content.includes is not a function" }
    refine ⟨r, ?_, rfl, _, rfl, by decide⟩
    simp [parseDocument, parseCsvContent, tryCatchE, hpdf, hword, hcsv, r]
  · intro env c m f e hpdf hword hcsv hxl herr he
    let r : ExtractedData :=
      { content := Content.text ("Failed to parse Excel file: " ++ e),
        type := "excel", parsed := false, error := some e }
    refine ⟨r, ?_, rfl, e, rfl, he⟩
    simp [parseDocument, parseExcelContent, tryCatchE, hpdf, hword, hcsv, hxl, herr, r]
  · intro env c m f hpdf hword hcsv hxl
    refine ⟨?_, rfl⟩
    simp [parseDocument, tryCatchE, hpdf, hword, hcsv, hxl]

/-- Witness for C3: the pdf and csv failure clauses applied at a concrete
all-failing environment. -/
theorem parseDocument_failure_contract_witness :
    (∃ r, parseDocument envAllFail (FileContent.buf "x") (some "application/pdf") none =
        Except.ok r ∧ r.parsed = false ∧ ∃ msg, r.error = some msg ∧ msg ≠ "") ∧
    (∃ r, parseDocument envAllFail (FileContent.buf "x") (some "text/csv") none =
        Except.ok r ∧ r.parsed = false ∧ ∃ msg, r.error = some msg ∧ msg ≠ "") :=
  ⟨parseDocument_failure_contract.2.1 envAllFail (FileContent.buf "x")
      (some "application/pdf") none "bad pdf" "bad pdf again" (by decide) rfl rfl (by decide),
   parseDocument_failure_contract.2.2.2.1 envAllFail "x" (some "text/csv") none
      (by decide) (by decide) (by decide)⟩

/-- Lowercasing fixes decimal digits. -/
theorem digit_toLower {ch : Char} (h : ch.isDigit = true) : ch.toLower = ch := by
  simp [Char.isDigit] at h
  obtain ⟨h1, h2⟩ := h
  have t2 : ch.toNat ≤ 57 := h2
  unfold Char.toLower
  rw [if_neg (by omega)]

/-- Lowercasing fixes the whitespace characters of `\s`. -/
theorem space_toLower {ch : Char} (h : isJsSpace ch = true) : ch.toLower = ch := by
  simp only [isJsSpace, Bool.or_eq_true, decide_eq_true_eq, or_assoc] at h
  rcases h with h | h | h | h | h | h <;> subst h <;> decide

/-- A character whose lowercase form is a non-digit is itself a non-digit. -/
theorem not_digit_of_toLower {ch ℓ : Char} (h : ch.toLower = ℓ) (hnd : ℓ.isDigit = false) :
    ch.isDigit = false := by
  cases hd : ch.isDigit
  · rfl
  · rw [digit_toLower hd] at h
    subst h
    rw [hd] at hnd
    cases hnd

/-- A character whose lowercase form is a non-space is itself a non-space. -/
theorem not_space_of_toLower {ch ℓ : Char} (h : ch.toLower = ℓ) (hns : isJsSpace ℓ = false) :
    isJsSpace ch = false := by
  cases hs : isJsSpace ch
  · rfl
  · rw [space_toLower hs] at h
    subst h
    rw [hs] at hns
    cases hns

/-- Digits are not `\s` whitespace. -/
theorem digit_not_space {ch : Char} (h : ch.isDigit = true) : isJsSpace ch = false := by
  cases hs : isJsSpace ch
  · rfl
  · exfalso
    simp only [isJsSpace, Bool.or_eq_true, decide_eq_true_eq, or_assoc] at hs
    rcases hs with e | e | e | e | e | e <;> subst e <;> exact absurd h (by decide)

/-- Lowercasing is the identity on an all-digit list. -/
theorem map_toLower_digits {ds : List Char} (h : ∀ ch ∈ ds, ch.isDigit = true) :
    ds.map Char.toLower = ds := by
  induction ds with
  | nil => rfl
  | cons d ds ih =>
    simp only [List.map_cons]
    rw [digit_toLower (h d (by simp)), ih (fun ch hm => h ch (by simp [hm]))]

/-- Lowercasing is the identity on an all-whitespace list. -/
theorem map_toLower_spaces {ws : List Char} (h : ∀ ch ∈ ws, isJsSpace ch = true) :
    ws.map Char.toLower = ws := by
  induction ws with
  | nil => rfl
  | cons w ws ih =>
    simp only [List.map_cons]
    rw [space_toLower (h w (by simp)), ih (fun ch hm => h ch (by simp [hm]))]

/-- Every character of a greedy digit run is a digit. -/
theorem takeDigits_all (cs : List Char) : ∀ ch ∈ (takeDigits cs).1, ch.isDigit = true := by
  induction cs with
  | nil => simp [takeDigits]
  | cons c cs ih =>
    intro ch hm
    rw [takeDigits] at hm
    by_cases hd : c.isDigit
    · simp only [hd, if_true] at hm
      rcases List.mem_cons.mp hm with e | e
      · exact e ▸ hd
      · exact ih ch e
    · simp [hd] at hm

/-- Every character of a greedy whitespace run is whitespace. -/
theorem takeSpaces_all (cs : List Char) : ∀ ch ∈ (takeSpaces cs).1, isJsSpace ch = true := by
  induction cs with
  | nil => simp [takeSpaces]
  | cons c cs ih =>
    intro ch hm
    rw [takeSpaces] at hm
    by_cases hd : isJsSpace c
    · simp only [hd, if_true] at hm
      rcases List.mem_cons.mp hm with e | e
      · exact e ▸ hd
      · exact ih ch e
    · simp [hd] at hm

/-- The matched text of a case-insensitive literal match lowercases to the
lowercased literal. -/
theorem matchLitCI_lower (lit : List Char) :
    ∀ (cs m rest : List Char), matchLitCI lit cs = some (m, rest) →
      m.map Char.toLower = lit.map Char.toLower := by
  induction lit with
  | nil =>
    intro cs m rest h
    rw [matchLitCI] at h
    cases h
    rfl
  | cons l ls ih =>
    intro cs m rest h
    cases cs with
    | nil => cases h
    | cons c cs =>
      rw [matchLitCI] at h
      by_cases he : c.toLower = l.toLower
      · simp only [he, if_true] at h
        cases hres : matchLitCI ls cs with
        | none => rw [hres] at h; cases h
        | some pr =>
          rw [hres] at h
          cases h
          simp only [List.map_cons]
          rw [he, ih cs pr.1 pr.2 (by rw [hres])]
      · simp [he] at h

/-- A successful alternation match comes from one of its alternatives. -/
theorem matchAltCI_mem (alts : List (List Char)) :
    ∀ (cs u rest : List Char), matchAltCI alts cs = some (u, rest) →
      ∃ alt ∈ alts, matchLitCI alt cs = some (u, rest) := by
  induction alts with
  | nil =>
    intro cs u rest h
    cases h
  | cons a rest_alts ih =>
    intro cs u rest h
    rw [matchAltCI] at h
    cases hres : matchLitCI a cs with
    | some pr =>
      rw [hres] at h
      cases h
      exact ⟨a, by simp, hres⟩
    | none =>
      rw [hres] at h
      obtain ⟨alt, hmem, hm⟩ := ih cs u rest h
      exact ⟨alt, by simp [hmem], hm⟩

/-- Every token produced by the duration-token matcher is well-shaped. -/
theorem matchTimeToken_wf (cs : List Char) (t : TimeToken) (rest : List Char)
    (h : matchTimeToken cs = some (t, rest)) : wfTimeToken t := by
  rw [matchTimeToken] at h
  rcases htd : takeDigits cs with ⟨ds, r1⟩
  rw [htd] at h
  dsimp only at h
  cases hds : ds.isEmpty with
  | true => rw [hds] at h; simp at h
  | false =>
    rw [hds] at h
    simp only [Bool.false_eq_true, if_false] at h
    rcases hts : takeSpaces r1 with ⟨ws, r2⟩
    rw [hts] at h
    cases halt : matchAltCI timeUnitAlts r2 with
    | none => rw [halt] at h; cases h
    | some pr =>
      rw [halt] at h
      simp only [Option.some.injEq, Prod.mk.injEq] at h
      obtain ⟨ht, _⟩ := h
      subst ht
      refine ⟨?_, ?_, ?_, ?_⟩
      · intro e
        have e' : ds = [] := e
        rw [e'] at hds
        simp at hds
      · intro ch hm
        have hall := takeDigits_all cs ch
        rw [htd] at hall
        exact hall hm
      · intro ch hm
        have hall := takeSpaces_all r1 ch
        rw [hts] at hall
        exact hall hm
      · obtain ⟨alt, hmem, hlit⟩ := matchAltCI_mem timeUnitAlts r2 pr.1 pr.2
          (by rw [halt])
        have hl := matchLitCI_lower alt r2 pr.1 pr.2 hlit
        have hfix : ∀ a ∈ timeUnitAlts, a.map Char.toLower = a := by decide
        show pr.1.map Char.toLower ∈ timeUnitAlts
        rw [hl, hfix alt hmem]
        exact hmem

/-- Soundness transfer for the generic global scan: if the matcher only
emits tokens satisfying `P`, so does the scan. -/
theorem scanTokensAux_mem {α : Type} {matcher : List Char → Option (α × List Char)}
    {P : α → Prop}
    (hm : ∀ cs t rest, matcher cs = some (t, rest) → P t) :
    ∀ (fuel : Nat) (cs : List Char), ∀ t ∈ scanTokensAux matcher fuel cs, P t := by
  intro fuel
  induction fuel with
  | zero =>
    intro cs t ht
    simp [scanTokensAux] at ht
  | succ fuel ih =>
    intro cs t ht
    cases cs with
    | nil => simp [scanTokensAux] at ht
    | cons c cs =>
      rw [scanTokensAux] at ht
      cases hmt : matcher (c :: cs) with
      | some pr =>
        rw [hmt] at ht
        rcases List.mem_cons.mp ht with e | e
        · exact e ▸ hm _ pr.1 pr.2 (by rw [hmt])
        · exact ih pr.2 t e
      | none =>
        rw [hmt] at ht
        exact ih cs t ht

/-- Every scanned duration token is well-shaped. -/
theorem timeTokens_wf (s : String) : ∀ t ∈ timeTokens s, wfTimeToken t :=
  scanTokensAux_mem (fun cs t rest h => matchTimeToken_wf cs t rest h) (s.length + 1) s.toList

/-- One-step unfolding of the substring scan on a nonempty pattern. -/
theorem containsSub_cons (c : Char) (cs : List Char) (p : Char) (ps : List Char) :
    containsSub (c :: cs) (p :: ps) =
      ((p :: ps).isPrefixOf (c :: cs) || containsSub cs (p :: ps)) := rfl

/-- A substring whose first character no element of `xs` equals cannot
start inside `xs`. -/
theorem containsSub_append_skip (xs ys : List Char) (p : Char) (ps : List Char)
    (hx : ∀ x ∈ xs, x ≠ p) :
    containsSub (xs ++ ys) (p :: ps) = containsSub ys (p :: ps) := by
  induction xs with
  | nil => rfl
  | cons x xs ih =>
    rw [List.cons_append, containsSub_cons]
    have hpre : (p :: ps).isPrefixOf (x :: (xs ++ ys)) = false := by
      rw [List.isPrefixOf]
      have : (p == x) = false := by
        have := hx x (by simp)
        simp [beq_iff_eq]
        exact fun e => this (e.symm)
      rw [this]
      rfl
    rw [hpre]
    simp only [Bool.false_or]
    exact ih (fun x hm => hx x (by simp [hm]))

/-- Whitespace characters are not digits. -/
theorem space_not_digit {ch : Char} (h : isJsSpace ch = true) : ch.isDigit = false := by
  cases hd : ch.isDigit
  · rfl
  · rw [digit_not_space hd] at h
    cases h

/-- On a well-shaped token, a case-insensitive containment test for a
letter-initial pattern sees only the unit part: the digits and whitespace
in front cannot start a match. -/
theorem containsCI_raw (t : TimeToken) (hwf : wfTimeToken t) (pat : List Char)
    (hpne : pat ≠ [])
    (hp : pat.head?.all (fun c => decide (c = 'h' ∨ c = 'm' ∨ c = 'd')) = true)
    (hlow : pat.map Char.toLower = pat) :
    containsCI (rawOfToken t) pat = containsSub (t.unit.map Char.toLower) pat := by
  obtain ⟨hne, hdig, hsp, hmem⟩ := hwf
  cases pat with
  | nil => exact absurd rfl hpne
  | cons p ps =>
    simp only [List.head?_cons, Option.all_some, decide_eq_true_eq] at hp
    unfold containsCI rawOfToken
    rw [hlow, List.map_append, List.map_append, map_toLower_digits hdig,
      map_toLower_spaces hsp, List.append_assoc]
    have hx1 : ∀ x ∈ t.numStr, x ≠ p := by
      intro x hm
      rcases hp with e | e | e <;> subst e <;>
        exact fun e2 => absurd (hdig x hm) (by rw [e2]; decide)
    have hx2 : ∀ x ∈ t.ws, x ≠ p := by
      intro x hm
      rcases hp with e | e | e <;> subst e <;>
        exact fun e2 => absurd (hsp x hm) (by rw [e2]; decide)
    rw [containsSub_append_skip _ _ p ps hx1, containsSub_append_skip _ _ p ps hx2]

/-- Head and last characters of every unit alternative, by computation. -/
theorem timeUnit_facts : ∀ alt ∈ timeUnitAlts,
    alt ≠ [] ∧ alt.head?.all (fun c => !c.isDigit) = true ∧
      alt.getLast?.all (fun c => !isJsSpace c) = true := by decide

/-- The first character of a matched unit is not a digit. -/
theorem unit_head_not_digit {u : List Char} (hu : u.map Char.toLower ∈ timeUnitAlts) :
    ∀ c, u.head? = some c → c.isDigit = false := by
  intro c hc
  obtain ⟨hne, hhd, _⟩ := timeUnit_facts _ hu
  have hmap : (u.map Char.toLower).head? = some c.toLower := by
    cases u with
    | nil => cases hc
    | cons x xs =>
      simp only [List.head?_cons, Option.some.injEq] at hc
      subst hc
      rfl
  rw [hmap] at hhd
  simp only [Option.all_some] at hhd
  exact not_digit_of_toLower rfl (by simpa using hhd)

/-- The last character of a matched unit is not whitespace. -/
theorem unit_last_not_space {u : List Char} (hu : u.map Char.toLower ∈ timeUnitAlts) :
    ∀ c, u.getLast? = some c → isJsSpace c = false := by
  intro c hc
  obtain ⟨hne, _, hlast⟩ := timeUnit_facts _ hu
  have hmap : (u.map Char.toLower).getLast? = some c.toLower := by
    rw [List.getLast?_map, hc]
    rfl
  rw [hmap] at hlast
  simp only [Option.all_some] at hlast
  exact not_space_of_toLower rfl (by simpa using hlast)

/-- Greedy digit scan across an all-digit block stops exactly at a
non-digit continuation. -/
theorem takeDigits_append {ds rest : List Char} (hall : ∀ ch ∈ ds, ch.isDigit = true)
    (hrest : ∀ ch, rest.head? = some ch → ch.isDigit = false) :
    takeDigits (ds ++ rest) = (ds, rest) := by
  induction ds with
  | nil =>
    cases rest with
    | nil => rfl
    | cons r rs =>
      rw [List.nil_append, takeDigits, hrest r rfl]
      simp
  | cons d dtl ih =>
    rw [List.cons_append, takeDigits, hall d (by simp)]
    simp only [if_true]
    rw [ih (fun ch hm => hall ch (by simp [hm]))]

/-- On a well-shaped token the `valueMatch` digit probe recovers exactly
the token's digit capture. -/
theorem firstDigitRun_raw (t : TimeToken) (hwf : wfTimeToken t) :
    firstDigitRun (rawOfToken t) = some t.numStr := by
  obtain ⟨hne, hdig, hsp, hmem⟩ := hwf
  have hrest : ∀ ch, (t.ws ++ t.unit).head? = some ch → ch.isDigit = false := by
    cases hws : t.ws with
    | nil =>
      simp only [List.nil_append]
      exact unit_head_not_digit hmem
    | cons w ws' =>
      intro ch hc
      simp only [List.cons_append, List.head?_cons, Option.some.injEq] at hc
      rw [← hc]
      exact space_not_digit (hsp w (by simp [hws]))
  have hsplit : rawOfToken t = t.numStr ++ (t.ws ++ t.unit) := by
    unfold rawOfToken
    rw [List.append_assoc]
  cases hns : t.numStr with
  | nil => exact absurd hns hne
  | cons d dtl =>
    have hall : ∀ ch ∈ d :: dtl, ch.isDigit = true := by
      intro ch hm
      exact hdig ch (by rw [hns]; exact hm)
    rw [hsplit, hns, List.cons_append, firstDigitRun, hall d (by simp)]
    simp only [if_true, Option.some.injEq]
    rw [show d :: (dtl ++ (t.ws ++ t.unit)) = (d :: dtl) ++ (t.ws ++ t.unit) from rfl]
    rw [takeDigits_append hall hrest]

/-- A well-shaped token's whole text starts with a digit and ends with a
unit letter, so `trim` leaves it unchanged. -/
theorem trimChars_raw (t : TimeToken) (hwf : wfTimeToken t) :
    trimChars (rawOfToken t) = rawOfToken t := by
  obtain ⟨hne, hdig, hsp, hmem⟩ := hwf
  have hune : t.unit ≠ [] := by
    intro e
    rw [e] at hmem
    exact absurd hmem (by decide)
  unfold trimChars
  have h1 : (rawOfToken t).dropWhile isJsSpace = rawOfToken t := by
    cases hns : t.numStr with
    | nil => exact absurd hns hne
    | cons d dtl =>
      have hraw : rawOfToken t = d :: (dtl ++ t.ws ++ t.unit) := by
        unfold rawOfToken
        rw [hns]
        simp [List.cons_append, List.append_assoc]
      rw [hraw, List.dropWhile_cons, digit_not_space (hdig d (by rw [hns]; simp))]
      simp
  rw [h1]
  obtain ⟨us, ul, hu⟩ := (List.eq_nil_or_concat t.unit).resolve_left hune
  have hlast : isJsSpace ul = false := by
    refine unit_last_not_space hmem ul ?_
    rw [hu]
    simp
  have h2 : (rawOfToken t).reverse = ul :: (us.reverse ++ (t.ws.reverse ++ t.numStr.reverse)) := by
    unfold rawOfToken
    rw [hu]
    simp [List.reverse_append]
  rw [h2, List.dropWhile_cons, hlast]
  simp only [Bool.false_eq_true, if_false]
  rw [← h2, List.reverse_reverse]

/-- A well-shaped token contributes to the running loop state exactly what
the claim's aggregation rule assigns it, and always sets the validity
flag. -/
theorem timeAccumStep_eq (t : TimeToken) (hwf : wfTimeToken t) (acc : Nat × Bool) :
    timeAccumStep acc (trimChars (rawOfToken t)) = (acc.1 + specTokenMinutes t, true) := by
  have hmem := hwf.2.2.2
  rw [trimChars_raw t hwf]
  unfold timeAccumStep
  rw [firstDigitRun_raw t hwf]
  rw [containsCI_raw t hwf "hour".toList (by decide) (by decide) (by decide),
    containsCI_raw t hwf "hr".toList (by decide) (by decide) (by decide),
    containsCI_raw t hwf "h".toList (by decide) (by decide) (by decide),
    containsCI_raw t hwf "min".toList (by decide) (by decide) (by decide),
    containsCI_raw t hwf "minute".toList (by decide) (by decide) (by decide),
    containsCI_raw t hwf "day".toList (by decide) (by decide) (by decide),
    containsCI_raw t hwf "d".toList (by decide) (by decide) (by decide)]
  have hcls := (by decide : ∀ a ∈ timeUnitAlts,
      ((containsSub a "hour".toList || containsSub a "hr".toList ||
        containsSub a "h".toList) = decide (a ∈ hourUnitLits)) ∧
      ((containsSub a "min".toList || containsSub a "minute".toList) =
        decide (a ∈ ["min".toList, "minute".toList, "minutes".toList])) ∧
      ((containsSub a "day".toList || containsSub a "d".toList) =
        decide (a ∈ dayUnitLits)))
    (t.unit.map Char.toLower) hmem
  obtain ⟨hH, hM, hD⟩ := hcls
  rw [hH, hM, hD]
  unfold specTokenMinutes
  by_cases h1 : t.unit.map Char.toLower ∈ hourUnitLits
  · simp [h1]
  · by_cases h2 : t.unit.map Char.toLower ∈ dayUnitLits
    · have hmin : t.unit.map Char.toLower ∉
          ["min".toList, "minute".toList, "minutes".toList] :=
        (by decide : ∀ a ∈ timeUnitAlts, a ∈ dayUnitLits →
          a ∉ ["min".toList, "minute".toList, "minutes".toList])
          (t.unit.map Char.toLower) hmem h2
      rw [decide_eq_false h1, decide_eq_false hmin, decide_eq_true h2]
      simp only [Bool.false_eq_true, if_false, if_true, h1, h2]
      exact congrArg (fun n => (acc.1 + n, true)) (by ring)
    · have h3 : t.unit.map Char.toLower ∈
          ["min".toList, "minute".toList, "minutes".toList] := by
        have := (by decide : ∀ a ∈ timeUnitAlts, a ∈ hourUnitLits ∨
            a ∈ ["min".toList, "minute".toList, "minutes".toList] ∨
            a ∈ dayUnitLits) (t.unit.map Char.toLower) hmem
        tauto
      rw [decide_eq_false h1, decide_eq_true h3]
      simp [h1, h2]

/-- The whole accumulation loop over well-shaped tokens computes the
claim's sum of per-token contributions, flagging validity exactly when at
least one token exists. -/
theorem timeAccum_eq (tokens : List TimeToken) (hwf : ∀ t ∈ tokens, wfTimeToken t) :
    timeAccum (tokens.map (fun t => trimChars (rawOfToken t))) =
      ((tokens.map specTokenMinutes).sum, !tokens.isEmpty) := by
  unfold timeAccum
  suffices h : ∀ acc : Nat × Bool,
      (tokens.map (fun t => trimChars (rawOfToken t))).foldl timeAccumStep acc =
        (acc.1 + (tokens.map specTokenMinutes).sum, acc.2 || !tokens.isEmpty) by
    rw [h (0, false)]
    simp
  induction tokens with
  | nil =>
    intro acc
    simp
  | cons t ts ih =>
    intro acc
    simp only [List.map_cons, List.foldl_cons]
    rw [timeAccumStep_eq t (hwf t (by simp))]
    rw [ih (fun x hm => hwf x (by simp [hm]))]
    simp only [List.sum_cons, List.isEmpty_cons]
    refine congrArg₂ Prod.mk (by omega) (by simp)

/-- C8: duration aggregation of the diagram-metrics extractor — every
`number unit` token found anywhere in the text contributes number·60
minutes for an hour unit, number·8·60 for a day unit and the bare number
for a minute unit; the total is rendered by the `H hour(s)[ M minute(s)]`
/ `M minute(s)` formatter, and when no duration token is found the total
time is the string "Unknown". -/
theorem extractWorkflowMetrics_duration (s : String) :
    (extractWorkflowMetrics (some s)).totalTime =
      (if timeTokens s = [] then "Unknown"
       else formatTotalTime ((timeTokens s).map specTokenMinutes).sum) := by
  by_cases hs : s = ""
  · subst hs
    rfl
  · simp only [extractWorkflowMetrics, if_neg hs]
    rw [timeAccum_eq (timeTokens s) (timeTokens_wf s)]
    cases hT : timeTokens s with
    | nil => simp
    | cons t ts => simp

/-! ## Claim C7 — tabular merge of two CSV records -/

/-- Reading the key just written. -/
theorem objGet_objSet_self (o : List (String × String)) (k v : String) :
    objGet (objSet o k v) k = some v := by
  induction o with
  | nil => simp [objSet, objGet]
  | cons p t ih =>
    obtain ⟨k', v'⟩ := p
    rw [objSet]
    by_cases he : k' = k
    · rw [if_pos he, objGet, if_pos rfl]
    · rw [if_neg he, objGet, if_neg he]
      exact ih

/-- Writing one key leaves every other key's value unchanged. -/
theorem objGet_objSet_ne (o : List (String × String)) (k k' v : String) (h : k' ≠ k) :
    objGet (objSet o k v) k' = objGet o k' := by
  induction o with
  | nil => simp [objSet, objGet, Ne.symm h]
  | cons p t ih =>
    obtain ⟨k1, v1⟩ := p
    rw [objSet]
    by_cases he : k1 = k
    · rw [if_pos he, objGet, objGet, if_neg (fun e => h e.symm),
        if_neg (fun e => h (e.symm.trans he))]
    · rw [if_neg he, objGet, objGet]
      by_cases he2 : k1 = k'
      · rw [if_pos he2, if_pos he2]
      · rw [if_neg he2, if_neg he2]
        exact ih

/-- A key absent from a record reads as `none`. -/
theorem objGet_eq_none (row : List (String × String)) (k : String)
    (h : k ∉ row.map Prod.fst) : objGet row k = none := by
  induction row with
  | nil => rfl
  | cons p t ih =>
    simp only [List.map_cons, List.mem_cons, not_or] at h
    rw [objGet, if_neg (fun e => h.1 e.symm)]
    exact ih h.2

/-- Initialising every header to the empty string: a header key reads back
the empty string, any other key whatever the accumulator held. -/
theorem initRow_get (hdrs : List String) :
    ∀ (acc : List (String × String)) (k : String),
      objGet (hdrs.foldl (fun acc h => objSet acc h "") acc) k =
        if k ∈ hdrs then some "" else objGet acc k := by
  induction hdrs with
  | nil => simp
  | cons h hdrs ih =>
    intro acc k
    simp only [List.foldl_cons]
    rw [ih]
    by_cases hk : k ∈ hdrs
    · simp [hk]
    · rw [if_neg hk]
      by_cases he : k = h
      · subst he
        rw [if_pos (List.mem_cons_self k hdrs)]
        exact objGet_objSet_self acc k ""
      · rw [if_neg (by simp [List.mem_cons, he, hk])]
        exact objGet_objSet_ne acc h k "" he

/-- The value-copying fold of `standardizeRow`: with duplicate-free row
keys, a key found in the row and among the headers receives the row's
value; every other key keeps the accumulator's value. -/
theorem fillRow_get (hdrs : List String) :
    ∀ (row init : List (String × String)) (k : String),
      (row.map Prod.fst).Nodup →
      objGet (row.foldl
          (fun acc kv => if hdrs.contains kv.1 then objSet acc kv.1 kv.2 else acc) init) k =
        (objGet row k).elim (objGet init k)
          (fun v => if hdrs.contains k then some v else objGet init k) := by
  intro row
  induction row with
  | nil => intro init k _; rfl
  | cons kv row ih =>
    intro init k hnd
    obtain ⟨k1, v1⟩ := kv
    simp only [List.map_cons, List.nodup_cons] at hnd
    obtain ⟨hout, hnd'⟩ := hnd
    simp only [List.foldl_cons]
    rw [ih _ k hnd']
    by_cases he : k1 = k
    · have hrow : objGet row k = none := by
        refine objGet_eq_none row k ?_
        rw [← he]; exact hout
      rw [hrow]
      rw [objGet, if_pos he]
      simp only [Option.elim_none, Option.elim_some]
      by_cases hc : hdrs.contains k1
      · rw [if_pos hc, if_pos (he ▸ hc)]
        rw [he, objGet_objSet_self]
      · rw [if_neg hc, if_neg (fun hck => hc (he ▸ hck))]
    · rw [objGet, if_neg he]
      have hkeep : objGet (if hdrs.contains k1 = true then objSet init k1 v1 else init) k =
          objGet init k := by
        by_cases hc : hdrs.contains k1
        · rw [if_pos hc]
          exact objGet_objSet_ne init k1 k v1 (fun e => he e.symm)
        · rw [if_neg hc]
      rw [hkeep]

/-- `standardizeRow` gives every union header a value: the row's own when
present (row keys duplicate-free), the empty string otherwise. -/
theorem standardizeRow_get (hdrs : List String) (row : List (String × String))
    (fn k : String) (hnd : (row.map Prod.fst).Nodup) (hk : k ∈ hdrs)
    (hks : k ≠ "Source File") :
    objGet (standardizeRow hdrs row fn) k = some ((objGet row k).getD "") := by
  simp only [standardizeRow]
  rw [objGet_objSet_ne _ _ _ _ hks]
  rw [fillRow_get hdrs row _ k hnd]
  have hc : hdrs.contains k = true := by simpa using hk
  have hinit : objGet (hdrs.foldl (fun acc h => objSet acc h "") []) k = some "" := by
    rw [initRow_get hdrs [] k, if_pos hk]
  cases hg : objGet row k with
  | none => simp [hinit]
  | some v =>
    simp only [Option.elim_some, Option.getD_some]
    rw [if_pos hc]

/-- `standardizeRow` records the provenance file name under `Source File`. -/
theorem standardizeRow_sourceFile (hdrs : List String) (row : List (String × String))
    (fn : String) :
    objGet (standardizeRow hdrs row fn) "Source File" = some fn := by
  simp only [standardizeRow]
  exact objGet_objSet_self _ _ _

/-- C7: `combineDocumentData` on exactly two parsed CSV records with
headers `[A, B]` and `[B, C]` (headers pairwise distinct and distinct from
`"Source File"`) returns a parsed record whose headers are exactly
`[A, B, C, "Source File"]` and whose rows are the standardized source
rows; and every standardized row (with duplicate-free keys) carries a
value for each of `A`, `B`, `C` — the source row's value when present,
the empty string otherwise — with `Source File` recording the source
file name. -/
theorem combineDocumentData_two_csv
    (A B C f1 f2 : String)
    (rows1 rows2 : List (List (String × String)))
    (hAB : A ≠ B) (hAC : A ≠ C) (hBC : B ≠ C)
    (hA : A ≠ "Source File") (hB : B ≠ "Source File") (hC : C ≠ "Source File") :
    combineDocumentData
        [{ fileName := f1, parsed := true,
           extractedData :=
             { content := Content.rows rows1, type := "csv", parsed := true,
               headers := some [A, B] } },
         { fileName := f2, parsed := true,
           extractedData :=
             { content := Content.rows rows2, type := "csv", parsed := true,
               headers := some [B, C] } }] =
      { content := Content.rows
          (rows1.map (fun row => standardizeRow [A, B, C] row f1) ++
           rows2.map (fun row => standardizeRow [A, B, C] row f2)),
        type := "csv", parsed := true,
        headers := some [A, B, C, "Source File"],
        fileNames := some [f1, f2] } ∧
    (∀ (row : List (String × String)) (fn : String),
        (row.map Prod.fst).Nodup →
        (∀ k ∈ [A, B, C],
            objGet (standardizeRow [A, B, C] row fn) k =
              some ((objGet row k).getD "")) ∧
        objGet (standardizeRow [A, B, C] row fn) "Source File" = some fn) := by
  have hded : dedupList [A, B, B, C] = [A, B, C] := by
    simp [dedupList, dedupAppend, Ne.symm hAB, Ne.symm hAC, Ne.symm hBC]
  have hsf : List.contains [A, B, C] "Source File" = false := by
    simp [Ne.symm hA, Ne.symm hB, Ne.symm hC]
  constructor
  · have key : combineDocumentData
        [{ fileName := f1, parsed := true,
           extractedData :=
             { content := Content.rows rows1, type := "csv", parsed := true,
               headers := some [A, B] } },
         { fileName := f2, parsed := true,
           extractedData :=
             { content := Content.rows rows2, type := "csv", parsed := true,
               headers := some [B, C] } }] =
      { content := Content.rows
          (rows1.map (fun row => standardizeRow (dedupList [A, B, B, C]) row f1) ++
           rows2.map (fun row => standardizeRow (dedupList [A, B, B, C]) row f2)),
        type := "csv", parsed := true,
        headers := some (if (dedupList [A, B, B, C]).contains "Source File" = true
          then dedupList [A, B, B, C] else dedupList [A, B, B, C] ++ ["Source File"]),
        fileNames := some [f1, f2] } := rfl
    rw [key, hded, hsf]
    rfl
  · intro row fn hnd
    constructor
    · intro k hkmem
      have hks : k ≠ "Source File" := by
        simp only [List.mem_cons, List.not_mem_nil, or_false] at hkmem
        rcases hkmem with rfl | rfl | rfl
        · exact hA
        · exact hB
        · exact hC
      exact standardizeRow_get [A, B, C] row fn k hnd hkmem hks
    · exact standardizeRow_sourceFile [A, B, C] row fn

/-- Concrete instance of the two-CSV merge: headers `["A","B"]` and
`["B","C"]`, one row each. -/
theorem combineDocumentData_two_csv_witness :
    combineDocumentData
        [{ fileName := "one.csv", parsed := true,
           extractedData :=
             { content := Content.rows [[("A", "1"), ("B", "2")]], type := "csv",
               parsed := true, headers := some ["A", "B"] } },
         { fileName := "two.csv", parsed := true,
           extractedData :=
             { content := Content.rows [[("B", "3"), ("C", "4")]], type := "csv",
               parsed := true, headers := some ["B", "C"] } }] =
      { content := Content.rows
          ([[("A", "1"), ("B", "2")]].map
              (fun row => standardizeRow ["A", "B", "C"] row "one.csv") ++
           [[("B", "3"), ("C", "4")]].map
              (fun row => standardizeRow ["A", "B", "C"] row "two.csv")),
        type := "csv", parsed := true,
        headers := some ["A", "B", "C", "Source File"],
        fileNames := some ["one.csv", "two.csv"] } ∧
    objGet (standardizeRow ["A", "B", "C"] [("B", "3"), ("C", "4")] "two.csv") "A" =
      some "" ∧
    objGet (standardizeRow ["A", "B", "C"] [("B", "3"), ("C", "4")] "two.csv")
      "Source File" = some "two.csv" := by
  have h := combineDocumentData_two_csv "A" "B" "C" "one.csv" "two.csv"
    [[("A", "1"), ("B", "2")]] [[("B", "3"), ("C", "4")]]
    (by decide) (by decide) (by decide) (by decide) (by decide) (by decide)
  refine ⟨h.1, ?_, ?_⟩
  · exact Eq.trans ((h.2 [("B", "3"), ("C", "4")] "two.csv" (by decide)).1 "A"
      (by decide)) (by decide)
  · exact (h.2 [("B", "3"), ("C", "4")] "two.csv" (by decide)).2

end DocProc
